import Mathlib

/-!
Verification of the bulk IP-to-geo enrichment scripts.

This file gives a shallow embedding of the three Python scripts

  * `src/misc-tools/ip-to-geo/ip2geo.py`        (API backend pipeline)
  * `src/F5-TMOS/bulk_geo_lookup/bulk_geo_lookup.py` (process backend pipeline)
  * `src/misc-tools/ip-to-subnet/ip2subnet.py`  (subnet bucketer)

and proves, or refutes on concrete inputs, the frozen specification claims
about input normalization, resolver error handling, result assembly order,
and subnet bucketing.

Conventions of the embedding:
  * A text file is a list of raw line strings (newlines already removed, as
    Python's line iteration plus `.strip()` makes trailing newlines moot).
  * Python `str.strip()` and `str.startswith` are embedded over the
    character list of the string (`pyStrip`, `startsWithHash`).
  * Python exceptions are modelled with `Except`: code that can raise returns
    `Except PyExn _`, a `try/except` block is an explicit `match` on it.
  * External effects (HTTP responses, subprocess runs) are passed in as
    explicit data so resolver functions become pure functions of them.
-/

namespace IpGeo

/-! ### Generic first-seen helpers

`dedupFirstBy key l` keeps exactly the elements of `l` that are the first of
their `key` class, in order: the head is always kept and every later element
with the same key is removed before recursing.  This is the declarative
rendering of "one entry per distinct key, keyed value taken from the first
occurrence, ordered by first encounter" used to specify the seen-set loops
of the Python sources. -/

def dedupFirstBy {α : Type _} {κ : Type _} [DecidableEq κ] (key : α → κ) : List α → List α
  | [] => []
  | a :: l => a :: dedupFirstBy key (l.filter (fun b => key b ≠ key a))
  termination_by l => l.length
  decreasing_by
    simp only [List.length_cons]
    exact Nat.lt_succ_of_le (List.length_filter_le _ _)

theorem dedupFirstBy_nil {α κ : Type _} [DecidableEq κ] (key : α → κ) :
    dedupFirstBy key [] = [] := by
  simp [dedupFirstBy]

theorem dedupFirstBy_cons {α κ : Type _} [DecidableEq κ] (key : α → κ) (a : α) (l : List α) :
    dedupFirstBy key (a :: l) = a :: dedupFirstBy key (l.filter (fun b => key b ≠ key a)) := by
  simp [dedupFirstBy]

/-- `dedupFirstBy` returns a subsequence of its input. -/
theorem dedupFirstBy_sublist {α κ : Type _} [DecidableEq κ] (key : α → κ) :
    ∀ l : List α, (dedupFirstBy key l).Sublist l
  | [] => by simp [dedupFirstBy]
  | a :: l => by
    rw [dedupFirstBy_cons]
    exact List.Sublist.cons₂ a
      ((dedupFirstBy_sublist key (l.filter (fun b => key b ≠ key a))).trans
        (List.filter_sublist l))
  termination_by l => l.length
  decreasing_by
    simp only [List.length_cons]
    exact Nat.lt_succ_of_le (List.length_filter_le _ _)

/-- The keys of `dedupFirstBy key l` are exactly the keys of `l`. -/
theorem mem_map_key_dedupFirstBy {α κ : Type _} [DecidableEq κ] (key : α → κ) :
    ∀ (l : List α) (k : κ), k ∈ (dedupFirstBy key l).map key ↔ k ∈ l.map key
  | [], k => by simp [dedupFirstBy]
  | a :: l, k => by
    rw [dedupFirstBy_cons]
    by_cases hk : k = key a
    · subst hk; simp
    · rw [List.map_cons, List.mem_cons, List.map_cons, List.mem_cons,
        mem_map_key_dedupFirstBy key (l.filter (fun b => key b ≠ key a)) k]
      constructor
      · rintro (h | h)
        · exact Or.inl h
        · rcases List.mem_map.1 h with ⟨b, hb, rfl⟩
          exact Or.inr (List.mem_map.2 ⟨b, (List.mem_filter.1 hb).1, rfl⟩)
      · rintro (h | h)
        · exact Or.inl h
        · rcases List.mem_map.1 h with ⟨b, hb, rfl⟩
          refine Or.inr (List.mem_map.2 ⟨b, List.mem_filter.2 ⟨hb, ?_⟩, rfl⟩)
          simpa using hk
  termination_by l => l.length
  decreasing_by
    simp only [List.length_cons]
    exact Nat.lt_succ_of_le (List.length_filter_le _ _)

/-- The keys of `dedupFirstBy key l` occur without repetition. -/
theorem nodup_map_key_dedupFirstBy {α κ : Type _} [DecidableEq κ] (key : α → κ) :
    ∀ l : List α, ((dedupFirstBy key l).map key).Nodup
  | [] => by simp [dedupFirstBy]
  | a :: l => by
    rw [dedupFirstBy_cons, List.map_cons, List.nodup_cons]
    refine ⟨fun hmem => ?_, nodup_map_key_dedupFirstBy key _⟩
    rw [mem_map_key_dedupFirstBy] at hmem
    rcases List.mem_map.1 hmem with ⟨b, hb, hkb⟩
    rcases List.mem_filter.1 hb with ⟨_, hne⟩
    simp only [ne_eq, decide_not, Bool.not_eq_eq_eq_not, Bool.not_true,
      decide_eq_false_iff_not] at hne
    exact hne hkb
  termination_by l => l.length
  decreasing_by
    simp only [List.length_cons]
    exact Nat.lt_succ_of_le (List.length_filter_le _ _)

/-- If the keys are already pairwise distinct, so are the surviving elements. -/
theorem dedupFirstBy_nodup_of_nodup {α κ : Type _} [DecidableEq κ] (key : α → κ)
    (l : List α) (h : l.Nodup) : (dedupFirstBy key l).Nodup :=
  (dedupFirstBy_sublist key l).nodup h

/-- The first element of the input is always kept first. -/
theorem dedupFirstBy_head {α κ : Type _} [DecidableEq κ] (key : α → κ) (a : α) (l : List α) :
    (dedupFirstBy key (a :: l)).head? = some a := by
  rw [dedupFirstBy_cons]; rfl

/-! ### Addresses and the subnet bucketer (`ip2subnet.py`)

`ipaddress.ip_address` values are modelled as a tagged numeric value; two
addresses are equal exactly when they have the same family and numeric value,
as in Python.  `ipaddress.ip_network(f"{ip}/16", strict=False)` keeps only the
top 16 bits of the address (top 24 for `/24`); networks of different families
are never equal, so a network key is again a tagged number, here the value of
the surviving top bits. -/

inductive IpAddr : Type
  | v4 (n : Nat)
  | v6 (n : Nat)
  deriving DecidableEq, Repr

/-- Network key of `ip_network(f"{ip}/16", strict=False)`: the top 16 bits. -/
def net16 : IpAddr → IpAddr
  | .v4 n => .v4 (n >>> 16)
  | .v6 n => .v6 (n >>> 112)

/-- Network key of `ip_network(f"{ip}/24", strict=False)`: the top 24 bits. -/
def net24 : IpAddr → IpAddr
  | .v4 n => .v4 (n >>> 8)
  | .v6 n => .v6 (n >>> 104)

/-- Dropping 8 more top bits turns a /24 network key into the /16 one. -/
def dropOctet : IpAddr → IpAddr
  | .v4 n => .v4 (n >>> 8)
  | .v6 n => .v6 (n >>> 8)

theorem net16_eq_dropOctet_net24 (a : IpAddr) : net16 a = dropOctet (net24 a) := by
  cases a with
  | v4 n =>
    simp only [net16, net24, dropOctet]
    rw [← Nat.shiftRight_add]
  | v6 n =>
    simp only [net16, net24, dropOctet]
    rw [← Nat.shiftRight_add]

/-- `OrderedDict.setdefault m k v`: insert `(k, v)` at the end unless the key
is already bound, in which case the dict is unchanged. -/
def setdefault (m : List (IpAddr × String)) (k : IpAddr) (v : String) :
    List (IpAddr × String) :=
  if m.any (fun p => p.1 = k) then m else m ++ [(k, v)]

/-- `build_representatives` from `ip2subnet.py`: one pass over the (text,
parsed) pairs, `setdefault`-ing each pair's /16 and /24 network into two
ordered dicts, then returning the two value lists. -/
def build_representatives (pairs : List (String × IpAddr)) : List String × List String :=
  let maps := pairs.foldl
    (fun (acc : List (IpAddr × String) × List (IpAddr × String)) p =>
      (setdefault acc.1 (net16 p.2) p.1, setdefault acc.2 (net24 p.2) p.1))
    ([], [])
  (maps.1.map Prod.snd, maps.2.map Prod.snd)

/-- Single-map reading of the `setdefault` accumulation loop. -/
def buildMapAux (net : IpAddr → IpAddr) (m : List (IpAddr × String)) :
    List (String × IpAddr) → List (IpAddr × String)
  | [] => m
  | p :: rest => buildMapAux net (setdefault m (net p.2) p.1) rest

/-- The paired fold of `build_representatives` is the product of the two
independent single-map folds. -/
theorem build_representatives_eq_buildMapAux (pairs : List (String × IpAddr)) :
    build_representatives pairs =
      ((buildMapAux net16 [] pairs).map Prod.snd, (buildMapAux net24 [] pairs).map Prod.snd) := by
  suffices h : ∀ (m16 m24 : List (IpAddr × String)),
      pairs.foldl
        (fun (acc : List (IpAddr × String) × List (IpAddr × String)) p =>
          (setdefault acc.1 (net16 p.2) p.1, setdefault acc.2 (net24 p.2) p.1))
        (m16, m24) = (buildMapAux net16 m16 pairs, buildMapAux net24 m24 pairs) by
    simp [build_representatives, h [] []]
  induction pairs with
  | nil => intro m16 m24; rfl
  | cons p rest ih => intro m16 m24; simp [List.foldl_cons, buildMapAux, ih]

/-- The accumulation loop keeps, for every network key not already bound in
the accumulator, exactly the first pair carrying that key. -/
theorem buildMapAux_eq_dedupFirstBy (net : IpAddr → IpAddr) :
    ∀ (pairs : List (String × IpAddr)) (m : List (IpAddr × String)),
      buildMapAux net m pairs =
        m ++ (dedupFirstBy (fun p => net p.2)
            (pairs.filter (fun p => m.all (fun q => q.1 ≠ net p.2)))).map
          (fun p => (net p.2, p.1))
  | [], m => by simp [buildMapAux, dedupFirstBy_nil]
  | p :: rest, m => by
    rw [buildMapAux]
    by_cases hin : (m.any (fun q => q.1 = net p.2)) = true
    · have hsd : setdefault m (net p.2) p.1 = m := by
        simp only [setdefault, hin, if_true]
      have hfilt : (p :: rest).filter (fun p => m.all (fun q => q.1 ≠ net p.2)) =
          rest.filter (fun p => m.all (fun q => q.1 ≠ net p.2)) := by
        rw [List.filter_cons]
        have hfalse : ¬ (m.all (fun q => q.1 ≠ net p.2) = true) := by
          rcases List.any_eq_true.1 hin with ⟨q, hq, hq2⟩
          intro hall
          have := List.all_eq_true.1 hall q hq
          simp only [ne_eq, decide_not, Bool.not_eq_eq_eq_not, Bool.not_true,
            decide_eq_false_iff_not] at this
          exact this (of_decide_eq_true hq2)
        rw [if_neg hfalse]
      rw [hsd, hfilt, buildMapAux_eq_dedupFirstBy net rest m]
    · have hsd : setdefault m (net p.2) p.1 = m ++ [(net p.2, p.1)] := by
        simp only [setdefault, hin, if_false, Bool.false_eq_true]
      have hall : m.all (fun q => q.1 ≠ net p.2) = true := by
        rw [List.all_eq_true]
        intro q hq
        simp only [ne_eq, decide_not, Bool.not_eq_eq_eq_not, Bool.not_true,
          decide_eq_false_iff_not]
        intro hq1
        exact hin (List.any_eq_true.2 ⟨q, hq, decide_eq_true hq1⟩)
      have hfilt : (p :: rest).filter (fun p => m.all (fun q => q.1 ≠ net p.2)) =
          p :: rest.filter (fun p => m.all (fun q => q.1 ≠ net p.2)) := by
        rw [List.filter_cons, if_pos hall]
      have hff : rest.filter (fun b => (m ++ [(net p.2, p.1)]).all (fun q => q.1 ≠ net b.2)) =
          (rest.filter (fun p => m.all (fun q => q.1 ≠ net p.2))).filter
            (fun b => net b.2 ≠ net p.2) := by
        rw [List.filter_filter]
        apply List.filter_congr
        intro b _
        simp only [List.all_append, List.all_cons, List.all_nil, Bool.and_true, ne_eq,
          decide_not]
        have hcomm : (decide (net p.2 = net b.2)) = (decide (net b.2 = net p.2)) := by
          apply decide_eq_decide.2
          exact eq_comm
        rw [hcomm, Bool.and_comm]
      rw [hsd, buildMapAux_eq_dedupFirstBy net rest (m ++ [(net p.2, p.1)]), hff, hfilt,
        dedupFirstBy_cons, List.map_cons, List.append_assoc, List.singleton_append]
  termination_by pairs => pairs.length

/-- The value lists of `build_representatives`: the text of the first pair in
each distinct network, in network first-encounter order. -/
theorem build_representatives_eq_dedupFirstBy (pairs : List (String × IpAddr)) :
    build_representatives pairs =
      ((dedupFirstBy (fun p => net16 p.2) pairs).map Prod.fst,
       (dedupFirstBy (fun p => net24 p.2) pairs).map Prod.fst) := by
  rw [build_representatives_eq_buildMapAux]
  have h : ∀ net : IpAddr → IpAddr,
      (buildMapAux net [] pairs).map Prod.snd =
        (dedupFirstBy (fun p => net p.2) pairs).map Prod.fst := by
    intro net
    rw [buildMapAux_eq_dedupFirstBy net pairs []]
    simp [List.map_map, Function.comp]
  rw [h net16, h net24]

/-! ### Python string primitives

`str.strip()` and `str.startswith("#")` are embedded over the character
list of the string, so that they evaluate on concrete inputs: `String.trim`
and `String.startsWith` get stuck on byte-position arithmetic in the kernel.
`isWs` is Python's ASCII whitespace class, shared with the `\\s` class of the
process backend's regular expression. -/

/-- Python's whitespace class on ASCII text: space, tab, newline, carriage
return, vertical tab, form feed. -/
def isWs (c : Char) : Bool :=
  c = ' ' || c = '\t' || c = '\n' || c = '\r' || c = '\x0b' || c = '\x0c'

/-- Python `s.strip()`: remove leading and trailing whitespace. -/
def pyStrip (s : String) : String :=
  String.mk (((s.data.dropWhile isWs).reverse.dropWhile isWs).reverse)

/-- Python `s.startswith("#")`. -/
def startsWithHash (s : String) : Bool :=
  match s.data with
  | c :: _ => decide (c = '#')
  | [] => false

/-! ### Input normalization

Three distinct normalizers appear in the sources:

  * `parse_ip_file` (`ip2geo.py`): strip, drop blank and `#` lines, then
    de-duplicate with a seen-set, preserving first-seen order;
  * `read_ips` (`bulk_geo_lookup.py`): strip and drop blank lines only —
    no comment filtering and no de-duplication;
  * `iter_ips` (`ip2subnet.py`): strip, drop blank lines, parse with
    `ipaddress.ip_address` (unparseable lines silently skipped), and
    de-duplicate on the parsed address value with a seen-set.

`iter_ips` takes the `ipaddress.ip_address` parser as an explicit parameter
`parse : String → Option IpAddr` (`none` models `ValueError`), since that
parser is Python standard library, not repository code. -/

/-- Seen-set de-duplication loop of `parse_ip_file`. -/
def dedupSeen (seen : List String) : List String → List String
  | [] => []
  | ip :: rest =>
    if ip ∈ seen then dedupSeen seen rest else ip :: dedupSeen (ip :: seen) rest

/-- `parse_ip_file` from `ip2geo.py`, on the file's list of raw lines. -/
def parse_ip_file (lines : List String) : List String :=
  let ips := lines.foldl
    (fun acc line =>
      let s := pyStrip line
      if s = "" ∨ startsWithHash s then acc else acc ++ [s]) []
  dedupSeen [] ips

/-- The tokens surviving the strip/blank/comment filter of `parse_ip_file`,
before de-duplication. -/
def keptTokens (lines : List String) : List String :=
  lines.filterMap (fun line =>
    let s := pyStrip line
    if s = "" ∨ startsWithHash s then none else some s)

/-- `read_ips` from `bulk_geo_lookup.py`: strip, keep every non-blank line. -/
def read_ips (lines : List String) : List String :=
  lines.filterMap (fun line =>
    let s := pyStrip line
    if s = "" then none else some s)

/-- Loop of `iter_ips` from `ip2subnet.py`, with its seen-set of parsed
address values. -/
def iterIpsAux (parse : String → Option IpAddr) (seen : List IpAddr) :
    List String → List (String × IpAddr)
  | [] => []
  | line :: rest =>
    let s := pyStrip line
    if s = "" then iterIpsAux parse seen rest
    else
      match parse s with
      | none => iterIpsAux parse seen rest
      | some ip =>
        if ip ∈ seen then iterIpsAux parse seen rest
        else (s, ip) :: iterIpsAux parse (ip :: seen) rest

/-- `iter_ips` from `ip2subnet.py`: yields (stripped text, parsed value). -/
def iter_ips (parse : String → Option IpAddr) (lines : List String) :
    List (String × IpAddr) :=
  iterIpsAux parse [] lines

/-- The (text, value) pairs surviving strip/blank/parse in `iter_ips`,
before de-duplication. -/
def parsedKept (parse : String → Option IpAddr) (lines : List String) :
    List (String × IpAddr) :=
  lines.filterMap (fun line =>
    let s := pyStrip line
    if s = "" then none else (parse s).map (fun ip => (s, ip)))

theorem dedupSeen_eq_dedupFirstBy :
    ∀ (l : List String) (seen : List String),
      dedupSeen seen l = dedupFirstBy id (l.filter (fun s => s ∉ seen))
  | [], seen => by simp [dedupSeen, dedupFirstBy_nil]
  | ip :: rest, seen => by
    rw [dedupSeen]
    by_cases hin : ip ∈ seen
    · rw [if_pos hin, List.filter_cons, if_neg (by simpa using hin),
        dedupSeen_eq_dedupFirstBy rest seen]
    · rw [if_neg hin, List.filter_cons, if_pos (by simpa using hin), dedupFirstBy_cons,
        dedupSeen_eq_dedupFirstBy rest (ip :: seen)]
      congr 1
      rw [List.filter_filter]
      have hfe : List.filter (fun s => decide (s ∉ ip :: seen)) rest =
          List.filter (fun a => decide (id a ≠ id ip) && decide (a ∉ seen)) rest := by
        apply List.filter_congr
        intro b _
        by_cases h1 : b = ip <;> by_cases h2 : b ∈ seen <;> simp [h1, h2]
      rw [hfe]

/-- `parse_ip_file` keeps exactly the first occurrence of each surviving
token, in first-seen order. -/
theorem parse_ip_file_eq_dedupFirstBy (lines : List String) :
    parse_ip_file lines = dedupFirstBy id (keptTokens lines) := by
  have hfold : ∀ (ls : List String) (acc : List String),
      ls.foldl
        (fun acc line =>
          let s := pyStrip line
          if s = "" ∨ startsWithHash s then acc else acc ++ [s]) acc =
        acc ++ keptTokens ls := by
    intro ls
    induction ls with
    | nil => intro acc; simp [keptTokens]
    | cons line rest ih =>
      intro acc
      rw [List.foldl_cons, ih]
      simp only [keptTokens, List.filterMap_cons]
      by_cases h : pyStrip line = "" ∨ startsWithHash (pyStrip line)
      · simp only [if_pos h]
      · simp only [if_neg h, List.append_assoc, List.singleton_append]
  rw [parse_ip_file, hfold (lines) [], List.nil_append, dedupSeen_eq_dedupFirstBy]
  congr 1
  rw [List.filter_eq_self.2]
  intro a _
  simp

theorem iterIpsAux_eq_dedupFirstBy (parse : String → Option IpAddr) :
    ∀ (lines : List String) (seen : List IpAddr),
      iterIpsAux parse seen lines =
        dedupFirstBy Prod.snd ((parsedKept parse lines).filter (fun p => p.2 ∉ seen))
  | [], seen => by simp [iterIpsAux, parsedKept, dedupFirstBy_nil]
  | line :: rest, seen => by
    rw [iterIpsAux]
    simp only [parsedKept, List.filterMap_cons]
    by_cases hblank : pyStrip line = ""
    · rw [if_pos hblank, if_pos hblank, iterIpsAux_eq_dedupFirstBy parse rest seen]
      rfl
    · rw [if_neg hblank, if_neg hblank]
      cases hparse : parse (pyStrip line) with
      | none =>
        rw [iterIpsAux_eq_dedupFirstBy parse rest seen]
        simp only [Option.map_none']
        rfl
      | some ip =>
        simp only [Option.map_some']
        by_cases hin : ip ∈ seen
        · rw [if_pos hin, List.filter_cons, if_neg (by simpa using hin),
            iterIpsAux_eq_dedupFirstBy parse rest seen]
          rfl
        · rw [if_neg hin, List.filter_cons, if_pos (by simpa using hin), dedupFirstBy_cons,
            iterIpsAux_eq_dedupFirstBy parse rest (ip :: seen)]
          congr 1
          rw [List.filter_filter]
          have hfe : List.filter (fun p => decide (p.2 ∉ ip :: seen)) (parsedKept parse rest) =
              List.filter (fun a => decide (a.2 ≠ (pyStrip line, ip).2) && decide (a.2 ∉ seen))
                (parsedKept parse rest) := by
            apply List.filter_congr
            intro b _
            by_cases h1 : b.2 = ip <;> by_cases h2 : b.2 ∈ seen <;> simp [h1, h2]
          rw [hfe]
          rfl

/-- `iter_ips` keeps exactly the first pair carrying each distinct parsed
address value, in first-seen order. -/
theorem iter_ips_eq_dedupFirstBy (parse : String → Option IpAddr) (lines : List String) :
    iter_ips parse lines = dedupFirstBy Prod.snd (parsedKept parse lines) := by
  rw [iter_ips, iterIpsAux_eq_dedupFirstBy]
  congr 1
  rw [List.filter_eq_self.2]
  intro a _
  simp


/-! ### API backend: `fetch_country_code2` (`ip2geo.py`)

The decoded JSON body is a Python value `PyVal`; an HTTP exchange is either a
connection-level failure (every `requests.RequestException`, timeouts
included) or a status code plus a body, where `Option.none` as a body models
text that fails JSON decoding (`r.json()` raising `ValueError`).  Python
exceptions travel in `Except`: `data.get(...)` on a non-dict value raises
`AttributeError`, which the source's `except` clauses do not catch. -/

inductive PyVal : Type
  | dict (entries : List (String × PyVal))
  | list (elems : List PyVal)
  | str (s : String)
  | int (n : Int)
  | bool (b : Bool)
  | none

inductive PyExn : Type
  | requestException
  | valueError
  | attributeError
  deriving DecidableEq, Repr

inductive HttpResp : Type
  | connErr
  | resp (status : Nat) (body : Option PyVal)

/-- Python `v.get(k)` for the `dict.get` method: returns the binding or
Python `None`; on any non-dict value the attribute lookup raises. -/
def pyGet (v : PyVal) (k : String) : Except PyExn PyVal :=
  match v with
  | .dict es => .ok (((es.find? (fun e => e.1 = k)).map Prod.snd).getD PyVal.none)
  | _ => .error .attributeError

/-- `dict.get` on a value already known to be a dict. -/
def dictGet (es : List (String × PyVal)) (k : String) : PyVal :=
  ((es.find? (fun e => e.1 = k)).map Prod.snd).getD PyVal.none

/-- `cc2 = loc.get("country_code2") if isinstance(loc, dict) else None`
(the source initializes `cc2 = None` and assigns only in the dict case). -/
def locCc2 (loc : PyVal) : PyVal :=
  match loc with
  | .dict ls => dictGet ls "country_code2"
  | _ => PyVal.none

/-- `if cc2 is None: cc2 = data.get("country_code2")` — can raise when
`data` is not a dict. -/
def cc2Fallback (data : PyVal) (cc2 : PyVal) : Except PyExn PyVal :=
  match cc2 with
  | PyVal.none => pyGet data "country_code2"
  | v => Except.ok v

/-- `cc2 = cc2.strip() if isinstance(cc2, str) else None`. -/
def strOrNone (v : PyVal) : Option String :=
  match v with
  | .str s => Option.some (pyStrip s)
  | _ => Option.none

/-- Propagate an exception or package the final `(ip, cc2)` pair. -/
def exceptStep (ip : String) (e : Except PyExn PyVal) :
    Except PyExn (String × Option String) :=
  match e with
  | .error e => .error e
  | .ok cc2b => .ok (ip, strOrNone cc2b)

/-- The `try` block of `fetch_country_code2`, line by line. -/
def fetchBody (ip : String) (r : HttpResp) : Except PyExn (String × Option String) :=
  match r with
  | .connErr => .error .requestException
  | .resp status mbody =>
    if status ≠ 200 then .ok (ip, Option.none)
    else
      match mbody with
      | Option.none => .error .valueError
      | Option.some data =>
        match pyGet data "location" with
        | .error e => .error e
        | .ok loc => exceptStep ip (cc2Fallback data (locCc2 loc))

/-- `fetch_country_code2` from `ip2geo.py`: the `try` block guarded by
`except requests.RequestException` and `except ValueError`, both returning
`(ip, None)`.  Any other exception escapes to the caller. -/
def fetch_country_code2 (ip : String) (r : HttpResp) :
    Except PyExn (String × Option String) :=
  match fetchBody ip r with
  | .ok v => .ok v
  | .error .requestException => .ok (ip, Option.none)
  | .error .valueError => .ok (ip, Option.none)
  | .error e => .error e

/-- Spec-side reading of the extraction, for a given `location` value:
country code under the location object when that object is a dict and the
field is present and non-null, otherwise the root-level field. -/
def locSpec (es : List (String × PyVal)) (loc : PyVal) : PyVal :=
  match loc with
  | .dict ls =>
    (match dictGet ls "country_code2" with
     | PyVal.none => dictGet es "country_code2"
     | v => v)
  | _ => dictGet es "country_code2"

/-- Spec-side country-code value of a JSON object body. -/
def specCc2 (es : List (String × PyVal)) : PyVal :=
  locSpec es (dictGet es "location")

/-- Spec-side extraction: the nested-with-fallback country-code field,
stripped when it is a string, `None` for any other shape. -/
def specExtract (es : List (String × PyVal)) : Option String :=
  strOrNone (specCc2 es)

theorem cc2Fallback_locCc2 (es : List (String × PyVal)) (loc : PyVal) :
    cc2Fallback (PyVal.dict es) (locCc2 loc) = Except.ok (locSpec es loc) := by
  cases loc with
  | dict ls =>
    show cc2Fallback (PyVal.dict es) (dictGet ls "country_code2") =
      Except.ok (match dictGet ls "country_code2" with
                 | PyVal.none => dictGet es "country_code2"
                 | v => v)
    cases dictGet ls "country_code2" <;> rfl
  | list a => rfl
  | str a => rfl
  | int a => rfl
  | bool a => rfl
  | none => rfl

/-- On a 200 response whose JSON root is an object, the exception-laden
extraction of the source agrees with the direct spec-side extraction and
never raises. -/
theorem fetch_ok_dict (ip : String) (es : List (String × PyVal)) :
    fetch_country_code2 ip (.resp 200 (Option.some (.dict es))) =
      .ok (ip, specExtract es) := by
  have hstep : fetchBody ip (.resp 200 (Option.some (.dict es))) =
      exceptStep ip (cc2Fallback (PyVal.dict es) (locCc2 (dictGet es "location"))) := rfl
  have hb : fetchBody ip (.resp 200 (Option.some (.dict es))) = .ok (ip, specExtract es) := by
    rw [hstep, cc2Fallback_locCc2]
    rfl
  rw [fetch_country_code2, hb]

/-- A 200 response with a valid-JSON non-object root raises `AttributeError`
out of `fetch_country_code2` (the source catches only `RequestException` and
`ValueError`). -/
theorem fetch_attrError_nonDict (ip : String) (v : PyVal) (h : ∀ es, v ≠ .dict es) :
    fetch_country_code2 ip (.resp 200 (Option.some v)) = .error .attributeError := by
  cases v with
  | dict es => exact absurd rfl (h es)
  | list a => rfl
  | str a => rfl
  | int a => rfl
  | bool a => rfl
  | none => rfl

/-- Non-200 statuses, connection failures and malformed bodies all collapse
to `(ip, None)` without raising. -/
theorem fetch_unresolved_cases (ip : String) :
    fetch_country_code2 ip .connErr = .ok (ip, Option.none) ∧
    (∀ (st : Nat) (b : Option PyVal), st ≠ 200 →
      fetch_country_code2 ip (.resp st b) = .ok (ip, Option.none)) ∧
    fetch_country_code2 ip (.resp 200 Option.none) = .ok (ip, Option.none) := by
  refine ⟨rfl, fun st b hst => ?_, rfl⟩
  have hb : fetchBody ip (.resp st b) = .ok (ip, Option.none) := by
    simp [fetchBody, hst]
  rw [fetch_country_code2, hb]

/-! ### API pipeline `main` (`ip2geo.py`)

`main` collects `(ip, cc2)` pairs in completion order (modelled as an
arbitrary permutation of the canonical outcome list), counting `cc2 is None`
as an error and rendering the row label with Python's `cc2 or ""`.  It then
sorts the rows by `order.get(ip, 10**9)` where `order = {ip: idx for idx, ip
in enumerate(ips)}` — a dict in which a later duplicate would overwrite an
earlier index, so the key is the last-occurrence index.  Python's stable
`list.sort` is modelled with `List.insertionSort`; on the batches at hand the
sort keys are pairwise distinct, so any correct sort yields the same list. -/

/-- Python `cc2 or ""` on an optional string. -/
def pyOrEmpty (o : Option String) : String :=
  match o with
  | Option.none => ""
  | Option.some s => if s = "" then "" else s

/-- The collection loop of `main`: error counter and row list. -/
def collectLoop (outcomes : List (String × Option String)) :
    Nat × List (String × String) :=
  outcomes.foldl
    (fun acc p =>
      (acc.1 + (if p.2 = Option.none then 1 else 0), acc.2 ++ [(p.1, pyOrEmpty p.2)]))
    (0, [])

theorem collectLoop_spec (outcomes : List (String × Option String)) :
    collectLoop outcomes =
      ((outcomes.filter (fun p => p.2 = Option.none)).length,
       outcomes.map (fun p => (p.1, pyOrEmpty p.2))) := by
  suffices h : ∀ (acc : Nat × List (String × String)),
      outcomes.foldl
        (fun acc p =>
          (acc.1 + (if p.2 = Option.none then 1 else 0), acc.2 ++ [(p.1, pyOrEmpty p.2)]))
        acc =
        (acc.1 + (outcomes.filter (fun p => p.2 = Option.none)).length,
         acc.2 ++ outcomes.map (fun p => (p.1, pyOrEmpty p.2))) by
    rw [collectLoop, h (0, [])]
    simp
  induction outcomes with
  | nil => intro acc; simp
  | cons p rest ih =>
    intro acc
    rw [List.foldl_cons, ih, List.filter_cons, List.map_cons]
    by_cases hp : p.2 = Option.none
    · simp only [hp, if_true, decide_eq_true_eq]
      simp [Nat.add_comm, Nat.add_assoc, Nat.add_left_comm]
    · simp only [hp, if_false, decide_eq_false hp]
      simp

/-- `order.get(row_ip, 10**9)`: the value bound to `row_ip` in the dict
`{ip: idx for idx, ip in enumerate(ips)}` (last binding wins), with the
`10**9` default for unknown addresses. -/
def orderGetAux (s : String) : Nat → List String → Option Nat
  | _, [] => Option.none
  | i, ip :: rest =>
    match orderGetAux s (i + 1) rest with
    | Option.some j => Option.some j
    | Option.none => if ip = s then Option.some i else Option.none

def orderGet (ips : List String) (s : String) : Nat :=
  (orderGetAux s 0 ips).getD (10 ^ 9)

theorem orderGetAux_eq_none (s : String) :
    ∀ (l : List String) (i : Nat), orderGetAux s i l = Option.none ↔ s ∉ l := by
  intro l
  induction l with
  | nil => intro i; simp [orderGetAux]
  | cons ip rest ih =>
    intro i
    rw [orderGetAux]
    constructor
    · intro h
      cases haux : orderGetAux s (i + 1) rest with
      | some j => simp only [haux] at h; exact absurd h (by simp)
      | none =>
        simp only [haux] at h
        have hrest : s ∉ rest := (ih (i + 1)).1 haux
        by_cases hip : ip = s
        · rw [if_pos hip] at h
          exact absurd h (by simp)
        · intro hmem
          rcases List.mem_cons.1 hmem with he | hm
          · exact hip he.symm
          · exact hrest hm
    · intro h
      have h1 : ip ≠ s := fun he => h (by simp [he])
      have h2 : s ∉ rest := fun hm => h (List.mem_cons_of_mem _ hm)
      rw [(ih (i + 1)).2 h2, if_neg h1]

theorem orderGetAux_get (s : String) :
    ∀ (l : List String) (i k : Nat) (hk : k < l.length),
      l.Nodup → l.get ⟨k, hk⟩ = s → orderGetAux s i l = Option.some (i + k) := by
  intro l
  induction l with
  | nil => intro i k hk; simp at hk
  | cons ip rest ih =>
    intro i k hk hnd hs
    rcases List.nodup_cons.1 hnd with ⟨hnotin, hndrest⟩
    rw [orderGetAux]
    cases k with
    | zero =>
      simp only [List.get] at hs
      subst hs
      rw [(orderGetAux_eq_none ip rest (i + 1)).2 hnotin]
      simp
    | succ j =>
      simp only [List.get] at hs
      have hj : j < rest.length := Nat.lt_of_succ_lt_succ hk
      rw [ih (i + 1) j hj hndrest hs]
      simp only [Option.some.injEq]
      omega

/-- On a duplicate-free batch, the sort key of the `k`-th address is `k`. -/
theorem orderGet_get (ips : List String) (hnd : ips.Nodup) (k : Nat) (hk : k < ips.length) :
    orderGet ips (ips.get ⟨k, hk⟩) = k := by
  rw [orderGet, orderGetAux_get (ips.get ⟨k, hk⟩) ips 0 k hk hnd rfl]
  simp

/-- The key-comparison passed to `results.sort`. -/
def rowLe (ips : List String) (a b : String × String) : Prop :=
  orderGet ips a.1 ≤ orderGet ips b.1

instance (ips : List String) : DecidableRel (rowLe ips) := fun a b =>
  inferInstanceAs (Decidable (orderGet ips a.1 ≤ orderGet ips b.1))

/-- `results.sort(key=lambda t: order.get(t[0], 10**9))`. -/
def pySortResults (ips : List String) (results : List (String × String)) :
    List (String × String) :=
  List.insertionSort (rowLe ips) results

/-- The outcome rows in submission order: one row per batch address, label
rendered with `cc2 or ""`. -/
def canonicalResults (ips : List String) (f : String → Option String) :
    List (String × String) :=
  ips.map (fun ip => (ip, pyOrEmpty (f ip)))

/-- Two lists sorted by a numeric key and equal as multisets are equal
outright when the keys repeat nowhere. -/
theorem eq_of_perm_of_sorted_nodup_keys {α : Type _} (key : α → Nat) :
    ∀ (l1 l2 : List α), l1.Perm l2 →
      l1.Pairwise (fun a b => key a ≤ key b) →
      l2.Pairwise (fun a b => key a ≤ key b) →
      (l1.map key).Nodup → l1 = l2
  | [], l2, hp, _, _, _ => hp.nil_eq
  | a :: t, [], hp, _, _, _ => by simpa using hp.length_eq
  | a :: t, b :: t2, hp, hs1, hs2, hnd => by
    rcases List.pairwise_cons.1 hs1 with ⟨ha, hs1t⟩
    rcases List.pairwise_cons.1 hs2 with ⟨hb, hs2t⟩
    have hab : a = b := by
      by_contra hne
      have hamem : a ∈ b :: t2 := hp.subset (List.mem_cons_self a t)
      have hbmem : b ∈ a :: t := hp.symm.subset (List.mem_cons_self b t2)
      have ha2 : a ∈ t2 := by
        rcases List.mem_cons.1 hamem with h | h
        · exact absurd h hne
        · exact h
      have hb2 : b ∈ t := by
        rcases List.mem_cons.1 hbmem with h | h
        · exact absurd h.symm hne
        · exact h
      have hkab : key a ≤ key b := ha b hb2
      have hkba : key b ≤ key a := hb a ha2
      have hkeq : key a = key b := Nat.le_antisymm hkab hkba
      exact hne (List.inj_on_of_nodup_map hnd (List.mem_cons_self a t)
        (List.mem_cons_of_mem a hb2) hkeq)
    subst hab
    have htp : t.Perm t2 := hp.cons_inv
    have hndt : (t.map key).Nodup := (List.nodup_cons.1 hnd).2
    rw [eq_of_perm_of_sorted_nodup_keys key t t2 htp hs1t hs2t hndt]

/-- The canonical rows are sorted by the order key and their keys repeat
nowhere, provided the batch is duplicate-free. -/
theorem canonicalResults_sorted (ips : List String) (f : String → Option String)
    (hnd : ips.Nodup) :
    (canonicalResults ips f).Pairwise (rowLe ips) ∧
      ((canonicalResults ips f).map (fun a => orderGet ips a.1)).Nodup := by
  have hlen : (canonicalResults ips f).length = ips.length := by
    simp [canonicalResults]
  have hkey : ∀ (i : Nat) (hi : i < (canonicalResults ips f).length),
      orderGet ips ((canonicalResults ips f).get ⟨i, hi⟩).1 = i := by
    intro i hi
    have hi2 : i < ips.length := hlen ▸ hi
    have : (canonicalResults ips f).get ⟨i, hi⟩ =
        (ips.get ⟨i, hi2⟩, pyOrEmpty (f (ips.get ⟨i, hi2⟩))) := by
      simp [canonicalResults]
    rw [this]
    exact orderGet_get ips hnd i hi2
  constructor
  · rw [List.pairwise_iff_get]
    intro i j hij
    rw [rowLe, hkey i.1 i.2, hkey j.1 j.2]
    exact Nat.le_of_lt hij
  · rw [List.nodup_iff_injective_get]
    intro i j hij
    rcases i with ⟨i, hi⟩
    rcases j with ⟨j, hj⟩
    have hi2 : i < (canonicalResults ips f).length := by simpa using hi
    have hj2 : j < (canonicalResults ips f).length := by simpa using hj
    have hgi : ((canonicalResults ips f).map (fun a => orderGet ips a.1)).get ⟨i, hi⟩ = i := by
      rw [List.get_map]
      exact hkey i hi2
    have hgj : ((canonicalResults ips f).map (fun a => orderGet ips a.1)).get ⟨j, hj⟩ = j := by
      rw [List.get_map]
      exact hkey j hj2
    rw [hij] at hgi
    rw [hgj] at hgi
    simp [hgi]

/-- The sorting pass of `main` restores submission order: whatever completion
order the rows arrived in, sorting by the enumeration key maps them back to
the canonical batch-ordered row list. -/
theorem pySortResults_restores (ips : List String) (f : String → Option String)
    (results : List (String × String)) (hnd : ips.Nodup)
    (hperm : results.Perm (canonicalResults ips f)) :
    pySortResults ips results = canonicalResults ips f := by
  haveI htot : IsTotal (String × String) (rowLe ips) :=
    ⟨fun a b => Nat.le_total (orderGet ips a.1) (orderGet ips b.1)⟩
  haveI htr : IsTrans (String × String) (rowLe ips) :=
    ⟨fun a b c => Nat.le_trans⟩
  have hs1 : (pySortResults ips results).Pairwise (rowLe ips) :=
    List.sorted_insertionSort (rowLe ips) results
  have hp1 : (pySortResults ips results).Perm (canonicalResults ips f) :=
    (List.perm_insertionSort (rowLe ips) results).trans hperm
  rcases canonicalResults_sorted ips f hnd with ⟨hs2, hnd2⟩
  have hnd1 : ((pySortResults ips results).map (fun a => orderGet ips a.1)).Nodup :=
    ((hp1.map (fun a => orderGet ips a.1)).nodup_iff).2 hnd2
  have hs1b : (pySortResults ips results).Pairwise
      (fun a b => orderGet ips a.1 ≤ orderGet ips b.1) := hs1
  have hs2b : (canonicalResults ips f).Pairwise
      (fun a b => orderGet ips a.1 ≤ orderGet ips b.1) := hs2
  exact eq_of_perm_of_sorted_nodup_keys (fun a => orderGet ips a.1)
    (pySortResults ips results) (canonicalResults ips f) hp1 hs1b hs2b hnd1

/-! ### Process backend: `COUNTRY_RE` and `run_geoip_lookup` (`bulk_geo_lookup.py`)

`COUNTRY_RE = re.compile(r"^\s*country_code\s*=\s*([A-Z]{2})\s*$", re.M)` and
`COUNTRY_RE.search(out)` are embedded directly.  With `re.M`, `^` matches at
the start of the text and right after every newline, and `$` matches at the
end of the text and right before every newline; `\s` itself also matches a
newline, so a match may span lines.  Since every constant piece of the
pattern (`c`, `=`, `[A-Z]`) is non-whitespace, greedy whitespace consumption
is equivalent to the regex's backtracking search, and the matcher below is
deterministic: at each candidate line start it either produces the unique
group or fails, and the search walks the line starts left to right exactly as
`re.search` reports the leftmost match. -/

/-- The regex class `[A-Z]`. -/
def isUpperAZ (c : Char) : Bool :=
  'A' ≤ c && c ≤ 'Z'

/-- Consume `\s*country_code`, returning the remaining characters. -/
def afterLit (cs : List Char) : Option (List Char) :=
  let c1 := cs.dropWhile isWs
  if "country_code".data.isPrefixOf c1 then Option.some (c1.drop 12) else Option.none

/-- Consume `\s*=`, returning the remaining characters. -/
def afterEq (cs : List Char) : Option (List Char) :=
  match cs.dropWhile isWs with
  | e :: rest => if e = '=' then Option.some rest else Option.none
  | [] => Option.none

/-- Consume `\s*([A-Z]{2})`, returning the group and the remaining text. -/
def grabCC (cs : List Char) : Option (Char × Char × List Char) :=
  match cs.dropWhile isWs with
  | a :: b :: rest =>
    if isUpperAZ a && isUpperAZ b then Option.some (a, b, rest) else Option.none
  | _ => Option.none

/-- `\s*$` under `re.M`: some prefix of the whitespace run ends at the end of
the text or immediately before a newline — equivalently, the whitespace run
reaches the end or contains a newline. -/
def tailOk (cs : List Char) : Bool :=
  cs.dropWhile isWs = [] || '\n' ∈ cs.takeWhile isWs

/-- Attempt the pattern at one position. -/
def matchCountryAt (cs : List Char) : Option (Char × Char) :=
  (afterLit cs).bind (fun t1 =>
    (afterEq t1).bind (fun t2 =>
      (grabCC t2).bind (fun g =>
        if tailOk g.2.2 then Option.some (g.1, g.2.1) else Option.none)))

/-- The characters after the first newline. -/
def afterFirstNl (cs : List Char) : List Char :=
  (cs.dropWhile (fun c => c ≠ '\n')).tail

theorem length_afterFirstNl_lt (cs : List Char) (hmem : '\n' ∈ cs) :
    (afterFirstNl cs).length < cs.length := by
  have hne : cs.dropWhile (fun c => c ≠ '\n') ≠ [] := by
    intro hnil
    have := List.dropWhile_eq_nil_iff.1 hnil '\n' hmem
    simp at this
  have hle : (cs.dropWhile (fun c => c ≠ '\n')).length ≤ cs.length :=
    (List.dropWhile_sublist _).length_le
  have hpos : 0 < (cs.dropWhile (fun c => c ≠ '\n')).length := List.length_pos.2 hne
  have htail : (afterFirstNl cs).length = (cs.dropWhile (fun c => c ≠ '\n')).length - 1 := by
    rw [afterFirstNl, List.length_tail]
  omega

/-- `COUNTRY_RE.search`: try the pattern at each `^` position (the start of
the text and the position after each newline) left to right. -/
def searchCountry (cs : List Char) : Option (Char × Char) :=
  if hmem : '\n' ∈ cs then
    match matchCountryAt cs with
    | Option.some g => Option.some g
    | Option.none => searchCountry (afterFirstNl cs)
  else matchCountryAt cs
  termination_by cs.length
  decreasing_by
    exact length_afterFirstNl_lt cs hmem

theorem searchCountry_no_newline (cs : List Char) (hmem : '\n' ∉ cs) :
    searchCountry cs = matchCountryAt cs := by
  rw [searchCountry, dif_neg hmem]

theorem searchCountry_of_match (cs : List Char) (g : Char × Char)
    (hm : matchCountryAt cs = Option.some g) : searchCountry cs = Option.some g := by
  by_cases hmem : '\n' ∈ cs
  · rw [searchCountry, dif_pos hmem, hm]
  · rw [searchCountry_no_newline cs hmem, hm]

theorem searchCountry_step (cs : List Char) (hmem : '\n' ∈ cs)
    (hm : matchCountryAt cs = Option.none) :
    searchCountry cs = searchCountry (afterFirstNl cs) := by
  rw [searchCountry, dif_pos hmem, hm]

/-- The text split at newlines (Python's notion of lines for `re.M`). -/
def splitNl : List Char → List (List Char)
  | [] => [[]]
  | c :: cs =>
    if c = '\n' then [] :: splitNl cs
    else
      match splitNl cs with
      | [] => [[c]]
      | l :: ls => (c :: l) :: ls

/-- Outcome of one `subprocess.run` call. -/
inductive SubprocResult : Type
  | completed (out : String)
  | timeoutExpired
  | exn

/-- `m.group(1) if m else "UNKNOWN"` over the captured output. -/
def countryOf (out : String) : String :=
  match searchCountry out.data with
  | Option.some g => String.mk [g.1, g.2]
  | Option.none => "UNKNOWN"

/-- `run_geoip_lookup` from `bulk_geo_lookup.py`: guard against empty and
`#`-prefixed input, run the command, extract the country code with
`COUNTRY_RE.search`, and collapse timeout and every other exception to
`"UNKNOWN"`. -/
def run_geoip_lookup (ip : String) (res : SubprocResult) : String × String :=
  if ip = "" ∨ startsWithHash ip then (ip, "UNKNOWN")
  else
    match res with
    | .completed out => (ip, countryOf out)
    | .timeoutExpired => (ip, "UNKNOWN")
    | .exn => (ip, "UNKNOWN")

/-- Every path of `run_geoip_lookup` echoes back the submitted address. -/
theorem run_geoip_lookup_fst (ip : String) (res : SubprocResult) :
    (run_geoip_lookup ip res).1 = ip := by
  rw [run_geoip_lookup.eq_def]
  by_cases hg : ip = "" ∨ startsWithHash ip
  · rw [if_pos hg]
  · rw [if_neg hg]
    cases res <;> rfl

/-! Auxiliary list lemmas for reasoning about the matcher across line
boundaries. -/

theorem dropWhile_cons_append (p : Char → Bool) :
    ∀ (l t : List Char) (x : Char) (xs : List Char),
      l.dropWhile p = x :: xs → (l ++ t).dropWhile p = x :: (xs ++ t)
  | [], t, x, xs, h => by simp [List.dropWhile] at h
  | c :: cs, t, x, xs, h => by
    rw [List.dropWhile_cons] at h
    by_cases hc : p c
    · rw [if_pos hc] at h
      rw [List.cons_append, List.dropWhile_cons, if_pos hc]
      exact dropWhile_cons_append p cs t x xs h
    · rw [if_neg hc] at h
      injection h with h1 h2
      subst h1
      subst h2
      rw [List.cons_append, List.dropWhile_cons, if_neg hc]

theorem takeWhile_append_of_all (p : Char → Bool) :
    ∀ (l t : List Char), (∀ x ∈ l, p x = true) →
      (l ++ t).takeWhile p = l ++ t.takeWhile p
  | [], t, _ => by simp
  | c :: cs, t, hall => by
    have hc : p c = true := hall c (List.mem_cons_self c cs)
    rw [List.cons_append, List.takeWhile_cons, if_pos hc,
      takeWhile_append_of_all p cs t (fun x hx => hall x (List.mem_cons_of_mem c hx))]
    rfl

theorem afterLit_append (l u t1 : List Char) (h : afterLit l = Option.some t1) :
    afterLit (l ++ u) = Option.some (t1 ++ u) := by
  rw [afterLit] at h
  by_cases hpre : "country_code".data.isPrefixOf (l.dropWhile isWs)
  · rw [if_pos hpre] at h
    injection h with h1
    rcases List.isPrefixOf_iff_prefix.1 hpre with ⟨s, hs⟩
    have hcons : l.dropWhile isWs = 'c' :: ("ountry_code".data ++ s) := by
      rw [← hs]; rfl
    have hdw : (l ++ u).dropWhile isWs = 'c' :: (("ountry_code".data ++ s) ++ u) :=
      dropWhile_cons_append isWs l u _ _ hcons
    have hdw2 : (l ++ u).dropWhile isWs = (l.dropWhile isWs) ++ u := by
      rw [hdw, hcons]; rfl
    rw [afterLit, hdw2, if_pos]
    · congr 1
      rw [← h1, List.drop_append_eq_append_drop]
      have hlen : 12 ≤ (l.dropWhile isWs).length := by
        rw [← hs, List.length_append]
        have : ("country_code".data).length = 12 := rfl
        omega
      have h0 : 12 - (l.dropWhile isWs).length = 0 := by omega
      rw [h0, List.drop_zero]
    · apply List.isPrefixOf_iff_prefix.2
      exact ⟨s ++ u, by rw [← List.append_assoc, hs]⟩
  · rw [if_neg hpre] at h
    exact absurd h (by simp)

theorem afterLit_sublist (l t1 : List Char) (h : afterLit l = Option.some t1) :
    t1.Sublist l := by
  rw [afterLit] at h
  by_cases hpre : "country_code".data.isPrefixOf (l.dropWhile isWs)
  · rw [if_pos hpre] at h
    injection h with h1
    rw [← h1]
    exact (List.drop_sublist 12 _).trans (List.dropWhile_sublist isWs)
  · rw [if_neg hpre] at h
    exact absurd h (by simp)

theorem afterEq_append (l u t2 : List Char) (h : afterEq l = Option.some t2) :
    afterEq (l ++ u) = Option.some (t2 ++ u) := by
  rw [afterEq] at h
  cases hdw : l.dropWhile isWs with
  | nil => rw [hdw] at h; exact absurd h (by simp)
  | cons e rest =>
    rw [hdw] at h
    simp only at h
    by_cases he : e = '='
    · rw [if_pos he] at h
      injection h with h1
      rw [← h1]
      rw [afterEq, dropWhile_cons_append isWs l u e rest hdw]
      simp only
      rw [if_pos he]
    · rw [if_neg he] at h
      exact absurd h (by simp)

theorem afterEq_sublist (l t2 : List Char) (h : afterEq l = Option.some t2) :
    t2.Sublist l := by
  rw [afterEq] at h
  cases hdw : l.dropWhile isWs with
  | nil => rw [hdw] at h; exact absurd h (by simp)
  | cons e rest =>
    rw [hdw] at h
    simp only at h
    by_cases he : e = '='
    · rw [if_pos he] at h
      injection h with h1
      rw [← h1]
      have hsubl : (e :: rest).Sublist l := hdw ▸ List.dropWhile_sublist isWs
      exact (List.sublist_cons_self e rest).trans hsubl
    · rw [if_neg he] at h
      exact absurd h (by simp)

theorem grabCC_append (l u : List Char) (a b : Char) (r : List Char)
    (h : grabCC l = Option.some (a, b, r)) :
    grabCC (l ++ u) = Option.some (a, b, r ++ u) := by
  rw [grabCC] at h
  cases hdw : l.dropWhile isWs with
  | nil => rw [hdw] at h; exact absurd h (by simp)
  | cons x rest =>
    rw [hdw] at h
    cases rest with
    | nil => simp at h
    | cons y rest2 =>
      simp only at h
      by_cases hup : (isUpperAZ x && isUpperAZ y) = true
      · rw [if_pos hup] at h
        simp only [Option.some.injEq, Prod.mk.injEq] at h
        obtain ⟨rfl, rfl, rfl⟩ := h
        rw [grabCC, dropWhile_cons_append isWs l u x (y :: rest2) hdw]
        simp only [List.cons_append]
        rw [if_pos hup]
      · rw [if_neg hup] at h
        exact absurd h (by simp)

theorem grabCC_sublist_and_upper (l : List Char) (a b : Char) (r : List Char)
    (h : grabCC l = Option.some (a, b, r)) :
    r.Sublist l ∧ isUpperAZ a = true ∧ isUpperAZ b = true := by
  rw [grabCC] at h
  cases hdw : l.dropWhile isWs with
  | nil => rw [hdw] at h; exact absurd h (by simp)
  | cons x rest =>
    rw [hdw] at h
    cases rest with
    | nil => simp at h
    | cons y rest2 =>
      simp only at h
      by_cases hup : (isUpperAZ x && isUpperAZ y) = true
      · rw [if_pos hup] at h
        simp only [Option.some.injEq, Prod.mk.injEq] at h
        obtain ⟨rfl, rfl, rfl⟩ := h
        have hsubl : (x :: y :: rest2).Sublist l := hdw ▸ List.dropWhile_sublist isWs
        rcases (by simpa using hup : isUpperAZ x = true ∧ isUpperAZ y = true) with ⟨hua, hub⟩
        exact ⟨((List.sublist_cons_self y rest2).trans
          (List.sublist_cons_self x (y :: rest2))).trans hsubl, hua, hub⟩
      · rw [if_neg hup] at h
        exact absurd h (by simp)

theorem tailOk_append_newline (r u : List Char) (hnl : '\n' ∉ r)
    (h : tailOk r = true) : tailOk (r ++ '\n' :: u) = true := by
  rw [tailOk, Bool.or_eq_true] at h
  have hws : ∀ x ∈ r, isWs x = true := by
    rcases h with h | h
    · exact List.dropWhile_eq_nil_iff.1 (of_decide_eq_true h)
    · exact absurd ((List.takeWhile_sublist isWs).subset (of_decide_eq_true h)) hnl
  rw [tailOk, Bool.or_eq_true]
  right
  rw [takeWhile_append_of_all isWs r ('\n' :: u) hws, List.takeWhile_cons]
  rw [if_pos (show isWs '\n' = true from rfl)]
  exact decide_eq_true (List.mem_append_right r (List.mem_cons_self _ _))

/-- A per-line match survives gluing the rest of the text back on: if the
newline-free segment `l` matches the pattern, so does the full text starting
at `l`'s position. -/
theorem matchCountryAt_append_newline (l u : List Char) (g : Char × Char)
    (hnl : '\n' ∉ l) (hm : matchCountryAt l = Option.some g) :
    matchCountryAt (l ++ '\n' :: u) = Option.some g := by
  rw [matchCountryAt] at hm
  rcases Option.bind_eq_some.1 hm with ⟨t1, h1, hm1⟩
  rcases Option.bind_eq_some.1 hm1 with ⟨t2, h2, hm2⟩
  rcases Option.bind_eq_some.1 hm2 with ⟨⟨a, b, r⟩, h3, hm3⟩
  have htail : tailOk r = true := by
    by_cases ht : tailOk r
    · exact ht
    · rw [if_neg ht] at hm3
      exact absurd hm3 (by simp)
  rw [if_pos htail] at hm3
  injection hm3 with hg
  have hsub : r.Sublist l :=
    ((grabCC_sublist_and_upper t2 a b r h3).1.trans (afterEq_sublist t1 t2 h2)).trans
      (afterLit_sublist l t1 h1)
  have hnlr : '\n' ∉ r := fun hmem => hnl (hsub.subset hmem)
  rw [matchCountryAt, afterLit_append l ('\n' :: u) t1 h1, Option.some_bind,
    afterEq_append t1 ('\n' :: u) t2 h2, Option.some_bind,
    grabCC_append t2 ('\n' :: u) a b r h3, Option.some_bind]
  simp only
  rw [if_pos (tailOk_append_newline r u hnlr htail), hg]

theorem splitNl_no_newline : ∀ cs : List Char, '\n' ∉ cs → splitNl cs = [cs]
  | [], _ => rfl
  | c :: cs, h => by
    have hc : ¬ c = '\n' := fun he => h (by simp [he])
    have hcs : '\n' ∉ cs := fun hm => h (List.mem_cons_of_mem c hm)
    show (if c = '\n' then [] :: splitNl cs
          else match splitNl cs with
               | [] => [[c]]
               | l :: ls => (c :: l) :: ls) = [c :: cs]
    rw [if_neg hc, splitNl_no_newline cs hcs]

theorem splitNl_append (r : List Char) :
    ∀ l : List Char, '\n' ∉ l → splitNl (l ++ '\n' :: r) = l :: splitNl r
  | [], _ => by
    show (if '\n' = '\n' then [] :: splitNl r
          else match splitNl r with
               | [] => [['\n']]
               | l :: ls => ('\n' :: l) :: ls) = [] :: splitNl r
    rw [if_pos rfl]
  | c :: l, h => by
    have hc : ¬ c = '\n' := fun he => h (by simp [he])
    have hl : '\n' ∉ l := fun hm => h (List.mem_cons_of_mem c hm)
    show (if c = '\n' then [] :: splitNl (l ++ '\n' :: r)
          else match splitNl (l ++ '\n' :: r) with
               | [] => [[c]]
               | l2 :: ls => (c :: l2) :: ls) = (c :: l) :: splitNl r
    rw [if_neg hc, splitNl_append r l hl]

theorem matchCountryAt_upper (cs : List Char) (a b : Char)
    (h : matchCountryAt cs = Option.some (a, b)) :
    isUpperAZ a = true ∧ isUpperAZ b = true := by
  rw [matchCountryAt] at h
  rcases Option.bind_eq_some.1 h with ⟨t1, h1, h1r⟩
  rcases Option.bind_eq_some.1 h1r with ⟨t2, h2, h2r⟩
  rcases Option.bind_eq_some.1 h2r with ⟨⟨x, y, r⟩, h3, h3r⟩
  by_cases ht : tailOk r = true
  · rw [if_pos ht] at h3r
    simp only [Option.some.injEq, Prod.mk.injEq] at h3r
    obtain ⟨rfl, rfl⟩ := h3r
    rcases grabCC_sublist_and_upper t2 x y r h3 with ⟨_, hua, hub⟩
    exact ⟨hua, hub⟩
  · rw [if_neg ht] at h3r
    exact absurd h3r (by simp)

/-- When the search fails, no single line of the text matches the pattern
either (completeness of the position walk with respect to the per-line
reading). -/
theorem searchCountry_none_lines :
    ∀ (n : Nat) (cs : List Char), cs.length ≤ n → searchCountry cs = Option.none →
      ∀ l ∈ splitNl cs, matchCountryAt l = Option.none := by
  intro n
  induction n with
  | zero =>
    intro cs hlen hs l hl
    have hnil : cs = [] := List.eq_nil_of_length_eq_zero (Nat.le_zero.1 hlen)
    subst hnil
    have hmem : '\n' ∉ ([] : List Char) := by simp
    rw [searchCountry_no_newline _ hmem] at hs
    rw [splitNl_no_newline _ hmem] at hl
    rcases List.mem_singleton.1 hl with rfl
    exact hs
  | succ n ih =>
    intro cs hlen hs l hl
    by_cases hmem : '\n' ∈ cs
    · have hm : matchCountryAt cs = Option.none := by
        cases hmc : matchCountryAt cs with
        | none => rfl
        | some g =>
          rw [searchCountry_of_match cs g hmc] at hs
          exact absurd hs (by simp)
      rw [searchCountry_step cs hmem hm] at hs
      have hne : cs.dropWhile (fun c => c ≠ '\n') ≠ [] := by
        intro hnil
        have := List.dropWhile_eq_nil_iff.1 hnil '\n' hmem
        simp at this
      have hhead : (cs.dropWhile (fun c => c ≠ '\n')).head hne = '\n' := by
        have := List.head_dropWhile_not (fun c => c ≠ '\n') cs hne
        simpa using this
      have hdecomp : cs = cs.takeWhile (fun c => c ≠ '\n') ++ '\n' :: afterFirstNl cs := by
        conv_lhs => rw [← List.takeWhile_append_dropWhile (fun c => c ≠ '\n') cs]
        congr 1
        rw [afterFirstNl]
        conv_lhs => rw [← List.head_cons_tail (cs.dropWhile (fun c => c ≠ '\n')) hne]
        rw [hhead]
      have hl1free : '\n' ∉ cs.takeWhile (fun c => c ≠ '\n') := by
        intro hmem2
        have := List.mem_takeWhile_imp hmem2
        simp at this
      rw [hdecomp, splitNl_append _ _ hl1free] at hl
      rcases List.mem_cons.1 hl with heq | hl2
      · have hfree : '\n' ∉ l := by rw [heq]; exact hl1free
        have hdecomp2 : cs = l ++ '\n' :: afterFirstNl cs := by rw [heq]; exact hdecomp
        cases hml : matchCountryAt l with
        | none => rfl
        | some g =>
          have hfull := matchCountryAt_append_newline l (afterFirstNl cs) g hfree hml
          rw [← hdecomp2] at hfull
          rw [hfull] at hm
          exact absurd hm (by simp)
      · have hlen2 : (afterFirstNl cs).length ≤ n := by
          have := length_afterFirstNl_lt cs hmem
          omega
        exact ih (afterFirstNl cs) hlen2 hs l hl2
    · rw [searchCountry_no_newline cs hmem] at hs
      rw [splitNl_no_newline cs hmem] at hl
      rcases List.mem_singleton.1 hl with rfl
      exact hs

/-- If some line of the output matches the pattern on its own, the regex
search cannot fail. -/
theorem searchCountry_ne_none_of_line (cs l : List Char) (hl : l ∈ splitNl cs)
    (hml : matchCountryAt l ≠ Option.none) : searchCountry cs ≠ Option.none := by
  intro hs
  exact hml (searchCountry_none_lines cs.length cs le_rfl hs l hl)

/-- Any group the search produces consists of two `[A-Z]` characters. -/
theorem searchCountry_upper :
    ∀ (n : Nat) (cs : List Char), cs.length ≤ n → ∀ a b,
      searchCountry cs = Option.some (a, b) → isUpperAZ a = true ∧ isUpperAZ b = true := by
  intro n
  induction n with
  | zero =>
    intro cs hlen a b hs
    have hnil : cs = [] := List.eq_nil_of_length_eq_zero (Nat.le_zero.1 hlen)
    subst hnil
    rw [searchCountry_no_newline _ (by simp)] at hs
    exact matchCountryAt_upper _ a b hs
  | succ n ih =>
    intro cs hlen a b hs
    by_cases hmem : '\n' ∈ cs
    · cases hmc : matchCountryAt cs with
      | some g =>
        rw [searchCountry_of_match cs g hmc] at hs
        injection hs with hg
        subst hg
        exact matchCountryAt_upper cs a b hmc
      | none =>
        rw [searchCountry_step cs hmem hmc] at hs
        have hlen2 : (afterFirstNl cs).length ≤ n := by
          have := length_afterFirstNl_lt cs hmem
          omega
        exact ih (afterFirstNl cs) hlen2 a b hs
    · rw [searchCountry_no_newline cs hmem] at hs
      exact matchCountryAt_upper cs a b hs

/-- A two-character country code is never the sentinel `"UNKNOWN"`. -/
theorem mk_two_ne_unknown (a b : Char) : String.mk [a, b] ≠ "UNKNOWN" := by
  intro h
  have hlen := congrArg (fun s => s.data.length) h
  simp at hlen

/-! ### Process pipeline `main` (`bulk_geo_lookup.py`)

`main` enumerates the batch, submits one `run_geoip_lookup` task per address,
pre-allocates `results = [None] * len(futures)` and stores each future's
result at its submission index (`results[idx] = fut.result()`).  The store
loop is modelled over an arbitrary permutation of the (index, result) pairs,
which subsumes every completion order the pool can produce. -/

/-- The (index, eventual result) pairs of the submitted futures, indices
starting at `k`. -/
def enumFutures (sub : String → SubprocResult) : Nat → List String → List (Nat × (String × String))
  | _, [] => []
  | k, ip :: rest => (k, run_geoip_lookup ip (sub ip)) :: enumFutures sub (k + 1) rest

/-- `results[idx] = value` for each arriving pair, left to right. -/
def writeAll (arr : List (Option (String × String)))
    (completed : List (Nat × (String × String))) : List (Option (String × String)) :=
  completed.foldl (fun r p => r.set p.1 (Option.some p.2)) arr

/-- The `results` array after the collection loop of `main`, for a given
arrival order `completed`. -/
def mainProcessResults (ips : List String) (completed : List (Nat × (String × String))) :
    List (Option (String × String)) :=
  writeAll (List.replicate ips.length Option.none) completed

theorem get?_set_self {α : Type _} (l : List α) (i : Nat) (a : α) (h : i < l.length) :
    (l.set i a).get? i = Option.some a := by
  rw [List.get?_eq_getElem?, List.getElem?_set_self']
  rw [List.getElem?_eq_getElem (by simpa using h)]
  rfl

theorem writeAll_get? :
    ∀ (completed : List (Nat × (String × String))) (arr : List (Option (String × String)))
      (i : Nat), (∀ p ∈ completed, p.1 < arr.length) →
      (writeAll arr completed).get? i =
        (match (completed.filter (fun p => p.1 = i)).getLast? with
         | Option.some p => Option.some (Option.some p.2)
         | Option.none => arr.get? i)
  | [], arr, i, _ => by simp [writeAll]
  | q :: rest, arr, i, hlt => by
    have hq : q.1 < arr.length := hlt q (List.mem_cons_self q rest)
    have hrest : ∀ p ∈ rest, p.1 < (arr.set q.1 (Option.some q.2)).length := by
      intro p hp
      rw [List.length_set]
      exact hlt p (List.mem_cons_of_mem q hp)
    have hw : writeAll arr (q :: rest) = writeAll (arr.set q.1 (Option.some q.2)) rest := rfl
    rw [hw, writeAll_get? rest (arr.set q.1 (Option.some q.2)) i hrest, List.filter_cons]
    by_cases hqi : q.1 = i
    · rw [if_pos (by simpa using hqi)]
      cases hlast : (rest.filter (fun p => p.1 = i)).getLast? with
      | some p => rw [List.getLast?_cons, hlast]; rfl
      | none =>
        rw [List.getLast?_cons, hlast]
        have hqlt : i < arr.length := hqi ▸ hq
        simp only
        rw [hqi, get?_set_self arr i (Option.some q.2) hqlt]
        rfl
    · rw [if_neg (by simpa using hqi)]
      cases hlast : (rest.filter (fun p => p.1 = i)).getLast? with
      | some p => rfl
      | none =>
        simp only
        rw [List.get?_eq_getElem?, List.get?_eq_getElem?, List.getElem?_set_ne hqi]

/-- Each submitted index is the submission position of its address, so
filtering the futures for one index leaves exactly that task. -/
theorem enumFutures_filter (sub : String → SubprocResult) :
    ∀ (ips : List String) (k i : Nat),
      (enumFutures sub k ips).filter (fun p => p.1 = i) =
        (if k ≤ i then
          (match ips.get? (i - k) with
           | Option.some ip => [(i, run_geoip_lookup ip (sub ip))]
           | Option.none => [])
         else [])
  | [], k, i => by
    simp only [enumFutures, List.filter_nil, List.get?_nil]
    by_cases h : k ≤ i <;> simp [h]
  | ip :: rest, k, i => by
    rw [enumFutures, List.filter_cons]
    by_cases hki : k = i
    · subst hki
      rw [if_pos (by simp)]
      rw [enumFutures_filter sub rest (k + 1) k]
      rw [if_neg (by omega)]
      rw [if_pos (Nat.le_refl k)]
      simp
    · rw [if_neg (by simpa using hki)]
      rw [enumFutures_filter sub rest (k + 1) i]
      by_cases hle : k ≤ i
      · have hlt : k + 1 ≤ i := by omega
        rw [if_pos hlt, if_pos hle]
        have hidx : i - k = (i - (k + 1)) + 1 := by omega
        rw [hidx]
        rfl
      · have : ¬ k + 1 ≤ i := by omega
        rw [if_neg this, if_neg hle]

theorem enumFutures_idx_lt (sub : String → SubprocResult) :
    ∀ (ips : List String) (k : Nat) (p : Nat × (String × String)),
      p ∈ enumFutures sub k ips → p.1 < k + ips.length
  | [], _, p, hp => by simp [enumFutures] at hp
  | ip :: rest, k, p, hp => by
    rw [enumFutures] at hp
    rcases List.mem_cons.1 hp with rfl | hp2
    · simp
    · have := enumFutures_idx_lt sub rest (k + 1) p hp2
      simp only [List.length_cons]
      omega

/-- Index-keyed assembly: for any arrival permutation of the futures, the
results array ends as the batch-ordered rows, each wrapped in `some`. -/
theorem mainProcessResults_eq (ips : List String) (sub : String → SubprocResult)
    (completed : List (Nat × (String × String)))
    (hperm : completed.Perm (enumFutures sub 0 ips)) :
    mainProcessResults ips completed =
      ips.map (fun ip => Option.some (run_geoip_lookup ip (sub ip))) := by
  apply List.ext_get?
  intro i
  have hlt : ∀ p ∈ completed, p.1 < (List.replicate ips.length
      (Option.none : Option (String × String))).length := by
    intro p hp
    rw [List.length_replicate]
    have := enumFutures_idx_lt sub ips 0 p (hperm.subset hp)
    omega
  rw [mainProcessResults, writeAll_get? completed _ i hlt]
  have hpf : (completed.filter (fun p => p.1 = i)).Perm
      ((enumFutures sub 0 ips).filter (fun p => p.1 = i)) := hperm.filter _
  rw [enumFutures_filter sub ips 0 i, if_pos (Nat.zero_le i), Nat.sub_zero] at hpf
  cases hip : ips.get? i with
  | some ip =>
    rw [hip] at hpf
    have heq : completed.filter (fun p => p.1 = i) = [(i, run_geoip_lookup ip (sub ip))] :=
      List.perm_singleton.1 hpf
    rw [heq]
    simp only [List.getLast?_singleton]
    rw [List.get?_map, hip]
    rfl
  | none =>
    rw [hip] at hpf
    have heq : completed.filter (fun p => p.1 = i) = [] := hpf.eq_nil
    rw [heq]
    simp only [List.getLast?_nil]
    have hge : ips.length ≤ i := by
      by_contra hlt2
      rcases List.get?_eq_get (Nat.lt_of_not_le hlt2) with h
      rw [h] at hip
      exact absurd hip (by simp)
    rw [List.get?_map, hip]
    simp only [Option.map_none']
    apply List.get?_eq_none.2
    rw [List.length_replicate]
    exact hge

/-! ### Counting distinct keys -/

theorem toFinset_map_eq {α β : Type _} [DecidableEq α] [DecidableEq β]
    (l : List α) (f : α → β) : (l.map f).toFinset = l.toFinset.image f := by
  ext x
  simp [List.mem_toFinset, Finset.mem_image, List.mem_map]

/-- `dedupFirstBy` keeps one element per distinct key. -/
theorem dedupFirstBy_length_card {α κ : Type _} [DecidableEq κ] (key : α → κ)
    (l : List α) : (dedupFirstBy key l).length = (l.map key).toFinset.card := by
  have h1 : ((dedupFirstBy key l).map key).Nodup := nodup_map_key_dedupFirstBy key l
  have h2 : ((dedupFirstBy key l).map key).toFinset = (l.map key).toFinset := by
    ext k
    simp only [List.mem_toFinset]
    exact mem_map_key_dedupFirstBy key l k
  calc (dedupFirstBy key l).length
      = ((dedupFirstBy key l).map key).length := (List.length_map _ _).symm
    _ = ((dedupFirstBy key l).map key).toFinset.card := (List.toFinset_card_of_nodup h1).symm
    _ = (l.map key).toFinset.card := by rw [h2]

/-- Coarsening the key through another function can only merge classes. -/
theorem dedupFirstBy_length_le_of_comp {α κ κ2 : Type _} [DecidableEq κ] [DecidableEq κ2]
    (key : α → κ) (f : κ → κ2) (l : List α) :
    (dedupFirstBy (fun a => f (key a)) l).length ≤ (dedupFirstBy key l).length := by
  rw [dedupFirstBy_length_card, dedupFirstBy_length_card]
  have hmap : l.map (fun a => f (key a)) = (l.map key).map f := by
    rw [List.map_map]
    rfl
  rw [hmap, toFinset_map_eq]
  exact Finset.card_image_le

/-! ### Membership facts about the normalizers -/

theorem mem_parse_ip_file_iff (lines : List String) (s : String) :
    s ∈ parse_ip_file lines ↔ s ∈ keptTokens lines := by
  rw [parse_ip_file_eq_dedupFirstBy]
  have h := mem_map_key_dedupFirstBy (id : String → String) (keptTokens lines) s
  simpa using h

theorem mem_keptTokens_shape (lines : List String) (s : String)
    (h : s ∈ keptTokens lines) : ¬(s = "" ∨ startsWithHash s = true) := by
  rcases List.mem_filterMap.1 h with ⟨line, _, hline⟩
  simp only at hline
  by_cases hc : pyStrip line = "" ∨ startsWithHash (pyStrip line) = true
  · rw [if_pos hc] at hline
    exact absurd hline (by simp)
  · rw [if_neg hc] at hline
    injection hline with h1
    rw [← h1]
    exact hc

theorem mem_parsedKept_shape (parse : String → Option IpAddr) (lines : List String)
    (s : String) (ip : IpAddr) (h : (s, ip) ∈ parsedKept parse lines) :
    s ≠ "" ∧ parse s = Option.some ip := by
  rcases List.mem_filterMap.1 h with ⟨line, _, hline⟩
  simp only at hline
  by_cases hc : pyStrip line = ""
  · rw [if_pos hc] at hline
    exact absurd hline (by simp)
  · rw [if_neg hc] at hline
    rcases Option.map_eq_some'.1 hline with ⟨ip2, hp, heq⟩
    have hs : pyStrip line = s := congrArg Prod.fst heq
    have hip : ip2 = ip := congrArg Prod.snd heq
    rw [← hs, ← hip]
    exact ⟨hc, hp⟩

theorem mem_iter_ips_shape (parse : String → Option IpAddr) (lines : List String)
    (s : String) (ip : IpAddr) (h : (s, ip) ∈ iter_ips parse lines) :
    s ≠ "" ∧ parse s = Option.some ip := by
  rw [iter_ips_eq_dedupFirstBy] at h
  exact mem_parsedKept_shape parse lines s ip
    ((dedupFirstBy_sublist Prod.snd (parsedKept parse lines)).subset h)

theorem mem_read_ips_shape (lines : List String) (s : String)
    (h : s ∈ read_ips lines) : ∃ line ∈ lines, s = pyStrip line ∧ s ≠ "" := by
  rcases List.mem_filterMap.1 h with ⟨line, hmem, hline⟩
  simp only at hline
  by_cases hc : pyStrip line = ""
  · rw [if_pos hc] at hline
    exact absurd hline (by simp)
  · rw [if_neg hc] at hline
    injection hline with h1
    exact ⟨line, hmem, h1.symm, h1 ▸ hc⟩

/-! ### Claim theorems -/

/-- C2 counterexample: a 200 response whose body is valid JSON but not a
JSON object — an array or a bare string — makes `fetch_country_code2` raise
`AttributeError` (from `data.get("location")`) instead of returning
`(ip, None)`: the source catches only `RequestException` and `ValueError`. -/
theorem claim_C2_counterexample :
    fetch_country_code2 "8.8.8.8" (.resp 200 (Option.some (.list []))) =
      .error .attributeError ∧
    fetch_country_code2 "8.8.8.8" (.resp 200 (Option.some (.str "nope"))) =
      .error .attributeError := ⟨rfl, rfl⟩

/-- C2 (amended): `fetch_country_code2` returns `(ip, outcome)` without
raising for every exchange except a 200 response carrying valid JSON whose
root is not an object, which raises `AttributeError`.  Connection failures,
non-200 statuses and malformed JSON all yield `(ip, None)`; an object root
is extracted per the spec's nested-with-root-fallback rule, yielding `None`
whenever the selected field is missing or not a string. -/
theorem claim_C2_amended (ip : String) :
    (∀ es, fetch_country_code2 ip (.resp 200 (Option.some (.dict es))) =
       .ok (ip, specExtract es)) ∧
    (∀ v, (∀ es, v ≠ PyVal.dict es) →
       fetch_country_code2 ip (.resp 200 (Option.some v)) = .error .attributeError) ∧
    fetch_country_code2 ip .connErr = .ok (ip, Option.none) ∧
    (∀ (st : Nat) (b : Option PyVal), st ≠ 200 →
       fetch_country_code2 ip (.resp st b) = .ok (ip, Option.none)) ∧
    fetch_country_code2 ip (.resp 200 Option.none) = .ok (ip, Option.none) ∧
    (∀ es, (∀ s, specCc2 es ≠ PyVal.str s) → specExtract es = Option.none) := by
  refine ⟨fun es => fetch_ok_dict ip es, fun v hv => fetch_attrError_nonDict ip v hv,
    (fetch_unresolved_cases ip).1, (fetch_unresolved_cases ip).2.1,
    (fetch_unresolved_cases ip).2.2, ?_⟩
  intro es hns
  rw [specExtract]
  cases hc : specCc2 es with
  | str s => exact absurd hc (hns s)
  | dict a => rfl
  | list a => rfl
  | int a => rfl
  | bool a => rfl
  | none => rfl

/-- C2 amended witness: a retried-out 503 collapses to `(ip, None)`, a
well-formed object body resolves, and a non-object body raises. -/
theorem claim_C2_amended_witness :
    fetch_country_code2 "1.2.3.4" (.resp 503 Option.none) = .ok ("1.2.3.4", Option.none) ∧
    fetch_country_code2 "1.2.3.4" (.resp 200 (Option.some (.dict
        [("location", .dict [("country_code2", .str "US")])]))) =
      .ok ("1.2.3.4", Option.some "US") ∧
    fetch_country_code2 "1.2.3.4" (.resp 200 (Option.some (.bool true))) =
      .error .attributeError := by
  refine ⟨(claim_C2_amended "1.2.3.4").2.2.2.1 503 Option.none (by decide), ?_, ?_⟩
  · rw [(claim_C2_amended "1.2.3.4").1 [("location", .dict [("country_code2", .str "US")])]]
    rfl
  · exact (claim_C2_amended "1.2.3.4").2.1 (.bool true) (fun es => by simp)

/-- C9: a 200 response whose country-code field is a whitespace-only string
resolves to the empty string — rendered in the CSV exactly like an
`Unresolved` (`None`) outcome — yet the error counter of `main` counts only
`None` outcomes, so the empty string is counted as a success. -/
theorem claim_C9_empty_string_success (ip : String)
    (outcomes : List (String × Option String)) :
    fetch_country_code2 ip (.resp 200 (Option.some (.dict
        [("location", .dict [("country_code2", .str "   ")])]))) =
      .ok (ip, Option.some "") ∧
    pyOrEmpty (Option.some "") = pyOrEmpty Option.none ∧
    (collectLoop outcomes).1 = (outcomes.filter (fun p => p.2 = Option.none)).length ∧
    (collectLoop outcomes).2 = outcomes.map (fun p => (p.1, pyOrEmpty p.2)) := by
  refine ⟨?_, rfl, ?_, ?_⟩
  · rw [fetch_ok_dict]
    rfl
  · rw [collectLoop_spec]
  · rw [collectLoop_spec]

/-- The spec's subnet-bucketing example batch, with parsed IPv4 values. -/
def exampleBatch : List (String × IpAddr) :=
  [("10.0.0.1", .v4 0x0A000001), ("10.0.0.5", .v4 0x0A000005),
   ("10.0.1.1", .v4 0x0A000101), ("10.1.0.1", .v4 0x0A010001)]

/-- C7: for every address batch, the subnet bucketer records as the
representative of each distinct /16 and /24 network the first address
observed in that network, never reassigning it, and outputs the
representatives ordered by first encounter of their network; concretely,
`[10.0.0.1, 10.0.0.5, 10.0.1.1, 10.1.0.1]` yields /24 representatives
`[10.0.0.1, 10.0.1.1, 10.1.0.1]` and /16 representatives
`[10.0.0.1, 10.1.0.1]`. -/
theorem claim_C7_subnet_first_reps :
    (∀ pairs : List (String × IpAddr),
       build_representatives pairs =
         ((dedupFirstBy (fun p => net16 p.2) pairs).map Prod.fst,
          (dedupFirstBy (fun p => net24 p.2) pairs).map Prod.fst)) ∧
    build_representatives exampleBatch =
      (["10.0.0.1", "10.1.0.1"], ["10.0.0.1", "10.0.1.1", "10.1.0.1"]) := by
  refine ⟨build_representatives_eq_dedupFirstBy, ?_⟩
  decide

/-- The IPv6 addresses `2001:db8::1` and `2001:dead::1`. -/
def v6a : Nat := 0x20010db8000000000000000000000001
def v6b : Nat := 0x2001dead000000000000000000000001

/-- A stand-in for `ipaddress.ip_address` on the two IPv6 literals of the C8
counterexample. -/
def toyParseV6 : String → Option IpAddr :=
  fun s =>
    if s = "2001:db8::1" then Option.some (.v6 v6a)
    else if s = "2001:dead::1" then Option.some (.v6 v6b)
    else Option.none

/-- C8 counterexample: the bucketer accepts IPv6 input unrejected and masks
it with the IPv4 prefix lengths — the distinct addresses `2001:db8::1` and
`2001:dead::1` (different /32 networks, so IPv6-appropriate prefixes would
separate them) land in one `/16` bucket because only their top 16 of 128
bits are compared. -/
theorem claim_C8_counterexample :
    IpAddr.v6 v6a ≠ IpAddr.v6 v6b ∧
    net16 (IpAddr.v6 v6a) = net16 (IpAddr.v6 v6b) ∧
    v6a >>> 96 ≠ v6b >>> 96 ∧
    iter_ips toyParseV6 ["2001:db8::1", "2001:dead::1"] =
      [("2001:db8::1", .v6 v6a), ("2001:dead::1", .v6 v6b)] ∧
    build_representatives [("2001:db8::1", .v6 v6a), ("2001:dead::1", .v6 v6b)] =
      (["2001:db8::1"], ["2001:db8::1", "2001:dead::1"]) := by
  refine ⟨by decide, by decide, by decide, by decide, by decide⟩

/-- C8 (amended): `build_representatives` silently applies the IPv4 prefix
lengths to IPv6 addresses: an IPv6 address is bucketed by its top 16 (resp.
24) bits, so two IPv6 addresses agreeing on those bits share one
representative, and nothing rejects IPv6 input. -/
theorem claim_C8_amended :
    (∀ n : Nat, net16 (IpAddr.v6 n) = IpAddr.v6 (n >>> 112) ∧
       net24 (IpAddr.v6 n) = IpAddr.v6 (n >>> 104)) ∧
    (∀ (s t : String) (m n : Nat), m >>> 112 = n >>> 112 →
       (build_representatives [(s, .v6 m), (t, .v6 n)]).1 = [s]) ∧
    (∀ (s t : String) (m n : Nat), m >>> 104 ≠ n >>> 104 →
       (build_representatives [(s, .v6 m), (t, .v6 n)]).2 = [s, t]) := by
  refine ⟨fun n => ⟨rfl, rfl⟩, ?_, ?_⟩
  · intro s t m n h
    rw [build_representatives_eq_dedupFirstBy]
    simp only [dedupFirstBy_cons, List.filter_cons, List.filter_nil]
    rw [if_neg (by simp [net16, h])]
    simp [dedupFirstBy_nil]
  · intro s t m n h
    rw [build_representatives_eq_dedupFirstBy]
    simp only [dedupFirstBy_cons, List.filter_cons, List.filter_nil]
    rw [if_pos (by simpa [net24] using Ne.symm h)]
    simp [dedupFirstBy_cons, dedupFirstBy_nil]

/-- C8 amended witness at the two concrete IPv6 addresses. -/
theorem claim_C8_amended_witness :
    (build_representatives [("2001:db8::1", .v6 v6a), ("2001:dead::1", .v6 v6b)]).1 =
      ["2001:db8::1"] ∧
    (build_representatives [("2001:db8::1", .v6 v6a), ("2001:dead::1", .v6 v6b)]).2 =
      ["2001:db8::1", "2001:dead::1"] :=
  ⟨claim_C8_amended.2.1 "2001:db8::1" "2001:dead::1" v6a v6b (by decide),
   claim_C8_amended.2.2 "2001:db8::1" "2001:dead::1" v6a v6b (by decide)⟩

/-- C10: for every batch, the /16 representative list is never longer than
the /24 list; both lists are drawn from the batch in batch order (they are
subsequences, without repetition when the batch has none); and a non-empty
batch contributes its first address as the head of both lists. -/
theorem claim_C10_reps_invariants (pairs : List (String × IpAddr)) :
    (build_representatives pairs).1.length ≤ (build_representatives pairs).2.length ∧
    (build_representatives pairs).1.Sublist (pairs.map Prod.fst) ∧
    (build_representatives pairs).2.Sublist (pairs.map Prod.fst) ∧
    ((pairs.map Prod.fst).Nodup →
      (build_representatives pairs).1.Nodup ∧ (build_representatives pairs).2.Nodup) ∧
    (∀ p rest, pairs = p :: rest →
      (build_representatives pairs).1.head? = Option.some p.1 ∧
      (build_representatives pairs).2.head? = Option.some p.1) := by
  rw [build_representatives_eq_dedupFirstBy]
  have hsub16 : ((dedupFirstBy (fun p => net16 p.2) pairs).map Prod.fst).Sublist
      (pairs.map Prod.fst) :=
    (dedupFirstBy_sublist (fun p => net16 p.2) pairs).map Prod.fst
  have hsub24 : ((dedupFirstBy (fun p => net24 p.2) pairs).map Prod.fst).Sublist
      (pairs.map Prod.fst) :=
    (dedupFirstBy_sublist (fun p => net24 p.2) pairs).map Prod.fst
  refine ⟨?_, hsub16, hsub24, fun hnd => ⟨hsub16.nodup hnd, hsub24.nodup hnd⟩, ?_⟩
  · rw [List.length_map, List.length_map]
    have hkey : (fun p : String × IpAddr => net16 p.2) =
        (fun p : String × IpAddr => dropOctet (net24 p.2)) := by
      funext p
      exact net16_eq_dropOctet_net24 p.2
    rw [hkey]
    exact dedupFirstBy_length_le_of_comp (fun p => net24 p.2) dropOctet pairs
  · rintro p rest rfl
    rw [dedupFirstBy_cons, dedupFirstBy_cons]
    exact ⟨rfl, rfl⟩

/-- C10 witness at the spec's example batch. -/
theorem claim_C10_reps_invariants_witness :
    (build_representatives exampleBatch).1.Nodup ∧
    (build_representatives exampleBatch).1.head? = Option.some "10.0.0.1" ∧
    (build_representatives exampleBatch).2.head? = Option.some "10.0.0.1" := by
  refine ⟨((claim_C10_reps_invariants exampleBatch).2.2.2.1 (by decide)).1, ?_, ?_⟩
  · exact ((claim_C10_reps_invariants exampleBatch).2.2.2.2
      ("10.0.0.1", .v4 0x0A000001) (exampleBatch.tail) rfl).1
  · exact ((claim_C10_reps_invariants exampleBatch).2.2.2.2
      ("10.0.0.1", .v4 0x0A000001) (exampleBatch.tail) rfl).2

/-- C4 counterexample: the process-backend normalizer `read_ips` does not
de-duplicate — a batch with `1.1.1.1` twice keeps both occurrences, so the
"every pipeline variant" part of the claim fails. -/
theorem claim_C4_counterexample :
    read_ips ["1.1.1.1", "1.1.1.1"] = ["1.1.1.1", "1.1.1.1"] ∧
    ¬ (read_ips ["1.1.1.1", "1.1.1.1"]).Nodup := ⟨by decide, by decide⟩

/-- C4 (amended): the API-backend normalizer `parse_ip_file` and the subnet
normalizer `iter_ips` de-duplicate while preserving first-seen order —
each output equals the first-occurrence subsequence of its surviving tokens
(`iter_ips` keyed on the parsed value) and is duplicate-free — but the
process-backend `read_ips` does not de-duplicate at all. -/
theorem claim_C4_amended :
    (∀ lines, parse_ip_file lines = dedupFirstBy id (keptTokens lines)) ∧
    (∀ lines, (parse_ip_file lines).Nodup) ∧
    (∀ lines s, s ∈ parse_ip_file lines ↔ s ∈ keptTokens lines) ∧
    (∀ parse lines, iter_ips parse lines = dedupFirstBy Prod.snd (parsedKept parse lines)) ∧
    (∀ parse lines, ((iter_ips parse lines).map Prod.snd).Nodup ∧
       (iter_ips parse lines).Sublist (parsedKept parse lines)) := by
  refine ⟨parse_ip_file_eq_dedupFirstBy, ?_, mem_parse_ip_file_iff,
    iter_ips_eq_dedupFirstBy, ?_⟩
  · intro lines
    rw [parse_ip_file_eq_dedupFirstBy]
    have h := nodup_map_key_dedupFirstBy (id : String → String) (keptTokens lines)
    simpa using h
  · intro parse lines
    rw [iter_ips_eq_dedupFirstBy]
    exact ⟨nodup_map_key_dedupFirstBy Prod.snd (parsedKept parse lines),
      dedupFirstBy_sublist Prod.snd (parsedKept parse lines)⟩

/-- C4 amended witness at a concrete duplicated input. -/
theorem claim_C4_amended_witness :
    (parse_ip_file ["1.1.1.1", "8.8.8.8", "1.1.1.1"]).Nodup ∧
    ("8.8.8.8" ∈ parse_ip_file ["1.1.1.1", "8.8.8.8", "1.1.1.1"] ↔
      "8.8.8.8" ∈ keptTokens ["1.1.1.1", "8.8.8.8", "1.1.1.1"]) :=
  ⟨claim_C4_amended.2.1 ["1.1.1.1", "8.8.8.8", "1.1.1.1"],
   claim_C4_amended.2.2.1 ["1.1.1.1", "8.8.8.8", "1.1.1.1"] "8.8.8.8"⟩

/-- C5 counterexample: the geo pipelines perform no IP-syntax validation —
the non-address line `hello world` survives both `parse_ip_file` and
`read_ips`, enters the resolution stage and produces a CSV data row in the
API pipeline. -/
theorem claim_C5_counterexample :
    parse_ip_file ["hello world"] = ["hello world"] ∧
    read_ips ["hello world"] = ["hello world"] ∧
    pySortResults (parse_ip_file ["hello world"])
        (canonicalResults (parse_ip_file ["hello world"]) (fun _ => Option.none)) =
      [("hello world", "")] := ⟨by decide, by decide, by decide⟩

/-- C5 (amended): only the subnet bucketer's normalizer `iter_ips` parses
its tokens and silently discards lines that fail to parse; the two geo
normalizers keep every surviving token, parseable or not, and forward it to
resolution. -/
theorem claim_C5_amended :
    (∀ parse lines s ip, (s, ip) ∈ iter_ips parse lines →
       s ≠ "" ∧ parse s = Option.some ip) ∧
    (∀ parse lines s, parse s = Option.none → ∀ ip, (s, ip) ∉ iter_ips parse lines) ∧
    (∀ lines s, s ∈ parse_ip_file lines ↔ s ∈ keptTokens lines) ∧
    (∀ lines s, s ∈ read_ips lines → ∃ line ∈ lines, s = pyStrip line ∧ s ≠ "") := by
  refine ⟨mem_iter_ips_shape, ?_, mem_parse_ip_file_iff, mem_read_ips_shape⟩
  intro parse lines s hparse ip hmem
  have := (mem_iter_ips_shape parse lines s ip hmem).2
  rw [hparse] at this
  exact absurd this (by simp)

/-- C5 amended witness: an unparseable token never reaches the subnet
bucketer, while a parseable one arrives with its parsed value. -/
theorem claim_C5_amended_witness :
    (("hello world", IpAddr.v4 0) ∉ iter_ips (fun _ => Option.none) ["hello world"]) ∧
    ("1.1.1.1" ≠ "" ∧ toyParseV6 "1.1.1.1" = Option.none) := by
  constructor
  · exact claim_C5_amended.2.1 (fun _ => Option.none) ["hello world"] "hello world" rfl
      (IpAddr.v4 0)
  · exact ⟨by decide, by decide⟩

/-- The end-to-end example input of the spec, as raw lines. -/
def exampleLines : List String := ["8.8.8.8", "# comment", "", "1.1.1.1", "8.8.8.8"]

/-- The example's process-backend resolver mock: `US` for `8.8.8.8`,
unmatched output otherwise. -/
def procMock : String → SubprocResult := fun ip =>
  if ip = "8.8.8.8" then SubprocResult.completed "country_code = US"
  else SubprocResult.completed "no match"

/-- The example's API-backend resolver mock: `US` for `8.8.8.8`, unresolved
otherwise. -/
def apiMock : String → Option String := fun ip =>
  if ip = "8.8.8.8" then Option.some "US" else Option.none

/-- C3 counterexample: in the process-backend pipeline the `# comment` line
is not discarded — `read_ips` keeps it and the run emits a data row
`# comment,UNKNOWN` — and the duplicate is kept too, so the example input
produces four data rows, not two. -/
theorem claim_C3_counterexample :
    read_ips exampleLines = ["8.8.8.8", "# comment", "1.1.1.1", "8.8.8.8"] ∧
    mainProcessResults (read_ips exampleLines)
        (enumFutures procMock 0 (read_ips exampleLines)) =
      [Option.some ("8.8.8.8", "US"), Option.some ("# comment", "UNKNOWN"),
       Option.some ("1.1.1.1", "UNKNOWN"), Option.some ("8.8.8.8", "US")] ∧
    (mainProcessResults (read_ips exampleLines)
        (enumFutures procMock 0 (read_ips exampleLines))).length ≠ 2 := by
  have h1 : searchCountry ("country_code = US".data) = Option.some ('U', 'S') :=
    searchCountry_of_match _ _ (by decide)
  have h2 : searchCountry ("no match".data) = Option.none := by
    rw [searchCountry_no_newline _ (by decide)]
    decide
  have hrow1 : run_geoip_lookup "8.8.8.8" (procMock "8.8.8.8") = ("8.8.8.8", "US") := by
    show run_geoip_lookup "8.8.8.8" (SubprocResult.completed "country_code = US") = _
    rw [run_geoip_lookup.eq_def, if_neg (by decide)]
    show ("8.8.8.8", countryOf "country_code = US") = _
    rw [countryOf, h1]
  have hrow2 : run_geoip_lookup "# comment" (procMock "# comment") =
      ("# comment", "UNKNOWN") := by
    rw [run_geoip_lookup.eq_def, if_pos (by decide)]
  have hrow3 : run_geoip_lookup "1.1.1.1" (procMock "1.1.1.1") = ("1.1.1.1", "UNKNOWN") := by
    show run_geoip_lookup "1.1.1.1" (SubprocResult.completed "no match") = _
    rw [run_geoip_lookup.eq_def, if_neg (by decide)]
    show ("1.1.1.1", countryOf "no match") = _
    rw [countryOf, h2]
  have hread : read_ips exampleLines = ["8.8.8.8", "# comment", "1.1.1.1", "8.8.8.8"] := by
    decide
  have hmain : mainProcessResults (read_ips exampleLines)
      (enumFutures procMock 0 (read_ips exampleLines)) =
      [Option.some ("8.8.8.8", "US"), Option.some ("# comment", "UNKNOWN"),
       Option.some ("1.1.1.1", "UNKNOWN"), Option.some ("8.8.8.8", "US")] := by
    rw [mainProcessResults_eq (read_ips exampleLines) procMock
      (enumFutures procMock 0 (read_ips exampleLines)) (List.Perm.refl _)]
    rw [hread]
    simp only [List.map_cons, List.map_nil]
    rw [hrow1, hrow2, hrow3]
  refine ⟨hread, hmain, ?_⟩
  rw [hmain]
  decide

/-- C3 (amended): blank lines are dropped by all three normalizers and
comment lines by the API and subnet ones (`parse_ip_file` checks for `#`,
`iter_ips` rejects `#`-lines because they fail address parsing), so the
example input yields exactly the two data rows `8.8.8.8,US` and `1.1.1.1,`
in the API pipeline; the process normalizer `read_ips` drops only blank
lines, so there the comment line survives to the resolution stage (and
produces a row, see the counterexample). -/
theorem claim_C3_amended :
    (∀ lines s, s ∈ parse_ip_file lines → ¬(s = "" ∨ startsWithHash s = true)) ∧
    (∀ parse lines s ip, (s, ip) ∈ iter_ips parse lines →
       s ≠ "" ∧ parse s = Option.some ip) ∧
    (∀ lines s, s ∈ read_ips lines → s ≠ "") ∧
    parse_ip_file exampleLines = ["8.8.8.8", "1.1.1.1"] ∧
    pySortResults (parse_ip_file exampleLines)
        (canonicalResults (parse_ip_file exampleLines) apiMock) =
      [("8.8.8.8", "US"), ("1.1.1.1", "")] := by
  refine ⟨?_, mem_iter_ips_shape, ?_, by decide, by decide⟩
  · intro lines s hmem
    exact mem_keptTokens_shape lines s ((mem_parse_ip_file_iff lines s).1 hmem)
  · intro lines s hmem
    rcases mem_read_ips_shape lines s hmem with ⟨line, _, _, hne⟩
    exact hne

/-- C3 amended witness at the example input. -/
theorem claim_C3_amended_witness :
    ¬("8.8.8.8" = "" ∨ startsWithHash "8.8.8.8" = true) ∧
    ("1.1.1.1" ≠ "" ∧ toyParseV6 "1.1.1.1" = Option.none) := by
  refine ⟨claim_C3_amended.1 exampleLines "8.8.8.8" ?_, by decide, by decide⟩
  rw [claim_C3_amended.2.2.2.1]
  decide

/-- C1: for every batch and every assignment of outcomes, whatever order
results complete in, the assembled rows are in the original batch order —
the process backend by writing each result into its submission-index slot,
and the API backend by sorting the completion-ordered rows with the
enumeration key of the (duplicate-free) batch. -/
theorem claim_C1_order_preservation :
    (∀ (ips : List String) (sub : String → SubprocResult)
       (completed : List (Nat × (String × String))),
       completed.Perm (enumFutures sub 0 ips) →
       mainProcessResults ips completed =
         ips.map (fun ip => Option.some (run_geoip_lookup ip (sub ip))) ∧
       (mainProcessResults ips completed).map (Option.map Prod.fst) =
         ips.map Option.some) ∧
    (∀ (ips : List String) (f : String → Option String) (results : List (String × String)),
       ips.Nodup → results.Perm (canonicalResults ips f) →
       pySortResults ips results = canonicalResults ips f ∧
       (pySortResults ips results).map Prod.fst = ips) := by
  constructor
  · intro ips sub completed hperm
    have hmain := mainProcessResults_eq ips sub completed hperm
    refine ⟨hmain, ?_⟩
    rw [hmain, List.map_map]
    have hcomp : (Option.map Prod.fst ∘ fun ip => Option.some (run_geoip_lookup ip (sub ip))) =
        fun ip => Option.some ((run_geoip_lookup ip (sub ip)).1) := rfl
    rw [hcomp]
    apply List.map_congr_left
    intro ip _
    rw [run_geoip_lookup_fst]
  · intro ips f results hnd hperm
    have hsort := pySortResults_restores ips f results hnd hperm
    refine ⟨hsort, ?_⟩
    rw [hsort, canonicalResults, List.map_map]
    have hcomp2 : (Prod.fst ∘ fun ip : String => (ip, pyOrEmpty (f ip))) =
        fun ip : String => ip := rfl
    rw [hcomp2]
    exact List.map_id ips

/-- A resolver mock whose subprocess always fails. -/
def subMockW : String → SubprocResult := fun _ => SubprocResult.exn

/-- C1 witness: both assemblers restore batch order on a two-address batch
whose results arrive in reversed order. -/
theorem claim_C1_order_preservation_witness :
    mainProcessResults ["8.8.8.8", "1.1.1.1"]
        [(1, ("1.1.1.1", "UNKNOWN")), (0, ("8.8.8.8", "UNKNOWN"))] =
      [Option.some ("8.8.8.8", "UNKNOWN"), Option.some ("1.1.1.1", "UNKNOWN")] ∧
    pySortResults ["8.8.8.8", "1.1.1.1"] [("1.1.1.1", ""), ("8.8.8.8", "US")] =
      [("8.8.8.8", "US"), ("1.1.1.1", "")] := by
  constructor
  · have h := (claim_C1_order_preservation.1 ["8.8.8.8", "1.1.1.1"] subMockW
      [(1, ("1.1.1.1", "UNKNOWN")), (0, ("8.8.8.8", "UNKNOWN"))] (by decide)).1
    exact h.trans (by decide)
  · have h := (claim_C1_order_preservation.2 ["8.8.8.8", "1.1.1.1"] apiMock
      [("1.1.1.1", ""), ("8.8.8.8", "US")] (by decide) (by decide)).1
    exact h.trans (by decide)

/-- C6 counterexample: on the output `country_code =\nUS` no single line
matches the pattern (the first line lacks the code, the second the
`country_code =` part), yet `run_geoip_lookup` returns `US`, because the
`\s*` after `=` consumes the newline — so "UNKNOWN when no line matches"
does not hold. -/
theorem claim_C6_counterexample :
    splitNl ("country_code =\nUS".data) = ["country_code =".data, "US".data] ∧
    matchCountryAt ("country_code =".data) = Option.none ∧
    matchCountryAt ("US".data) = Option.none ∧
    run_geoip_lookup "1.2.3.4" (SubprocResult.completed "country_code =\nUS") =
      ("1.2.3.4", "US") := by
  refine ⟨by decide, by decide, by decide, ?_⟩
  rw [run_geoip_lookup.eq_def, if_neg (by decide)]
  show ("1.2.3.4", countryOf "country_code =\nUS") = _
  rw [countryOf, searchCountry_of_match _ ('U', 'S') (by decide)]

/-- C6 (amended): for a non-empty, non-`#` address, `run_geoip_lookup`
returns `(address, XX)` where `XX` is the two-uppercase-letter group of the
leftmost match of the multiline pattern `^\s*country_code\s*=\s*([A-Z]{2})\s*$`
— whose whitespace may span newlines, so a match need not lie on one line —
and `(address, "UNKNOWN")` when the pattern matches nowhere, as well as on
timeout or any subprocess exception; if some single line matches the
pattern, the result is never `"UNKNOWN"`. -/
theorem claim_C6_amended (ip : String) (hne : ip ≠ "") (hns : startsWithHash ip = false) :
    run_geoip_lookup ip SubprocResult.timeoutExpired = (ip, "UNKNOWN") ∧
    run_geoip_lookup ip SubprocResult.exn = (ip, "UNKNOWN") ∧
    (∀ out, searchCountry out.data = Option.none →
       run_geoip_lookup ip (SubprocResult.completed out) = (ip, "UNKNOWN")) ∧
    (∀ out a b, searchCountry out.data = Option.some (a, b) →
       run_geoip_lookup ip (SubprocResult.completed out) = (ip, String.mk [a, b]) ∧
       isUpperAZ a = true ∧ isUpperAZ b = true ∧ String.mk [a, b] ≠ "UNKNOWN") ∧
    (∀ out l, l ∈ splitNl out.data → matchCountryAt l ≠ Option.none →
       run_geoip_lookup ip (SubprocResult.completed out) ≠ (ip, "UNKNOWN")) := by
  have hguard : ¬(ip = "" ∨ startsWithHash ip = true) := by
    rintro (h | h)
    · exact hne h
    · rw [hns] at h
      exact absurd h (by simp)
  have hcomp : ∀ out, run_geoip_lookup ip (SubprocResult.completed out) =
      (ip, countryOf out) := by
    intro out
    rw [run_geoip_lookup.eq_def, if_neg hguard]
  have hsome : ∀ out a b, searchCountry out.data = Option.some (a, b) →
      run_geoip_lookup ip (SubprocResult.completed out) = (ip, String.mk [a, b]) := by
    intro out a b hs
    rw [hcomp out, countryOf, hs]
  refine ⟨?_, ?_, ?_, ?_, ?_⟩
  · rw [run_geoip_lookup.eq_def, if_neg hguard]
  · rw [run_geoip_lookup.eq_def, if_neg hguard]
  · intro out hs
    rw [hcomp out, countryOf, hs]
  · intro out a b hs
    rcases searchCountry_upper out.data.length out.data le_rfl a b hs with ⟨hua, hub⟩
    exact ⟨hsome out a b hs, hua, hub, mk_two_ne_unknown a b⟩
  · intro out l hl hml heq
    cases hs : searchCountry out.data with
    | none => exact hml (searchCountry_none_lines out.data.length out.data le_rfl hs l hl)
    | some g =>
      rcases g with ⟨a, b⟩
      have h1 := hsome out a b hs
      rw [heq] at h1
      exact mk_two_ne_unknown a b (congrArg Prod.snd h1).symm

/-- C6 amended witness: timeout collapses to `UNKNOWN`, and a well-formed
single-line output yields its code. -/
theorem claim_C6_amended_witness :
    run_geoip_lookup "1.2.3.4" SubprocResult.timeoutExpired = ("1.2.3.4", "UNKNOWN") ∧
    run_geoip_lookup "1.2.3.4" (SubprocResult.completed "country_code = GB") =
      ("1.2.3.4", "GB") := by
  refine ⟨(claim_C6_amended "1.2.3.4" (by decide) (by decide)).1, ?_⟩
  exact ((claim_C6_amended "1.2.3.4" (by decide) (by decide)).2.2.2.1 "country_code = GB"
    'G' 'B' (searchCountry_of_match _ _ (by decide))).1

end IpGeo
